import Mathlib

/-!
Shallow embedding of `scripts/feedgen.py` (repository `myrss-feed-gen101`),
a single-file RSS/Atom aggregation pipeline, together with theorems settling
the specification claims about it.

Strings are modelled as `List Char`.  Python standard-library collaborators
(`html.unescape`, `hashlib.sha256`, `datetime` parsing and formatting,
`xml.etree.ElementTree`) are modelled as executable Lean functions on the
input shapes the program exercises; everything defined here is computable so
concrete runs can be checked by `decide` / `rfl`.
-/

namespace Feedgen

/-- Strings of the embedded program: lists of characters. -/
abbrev Str := List Char

/-- Convenience: a Lean string literal viewed as an embedded string. -/
def strL (s : String) : Str := s.toList

/-- Python `str.isspace`-style whitespace test for the characters the
program manipulates (the `\s` class of `re` and `str.strip`). -/
def pySpace (c : Char) : Bool :=
  c = ' ' || c = '\t' || c = '\n' || c = '\r' || c = '\x0b' || c = '\x0c'

/-- Python `str.strip()`: drop leading and trailing whitespace. -/
def pyStrip (s : Str) : Str :=
  ((s.dropWhile pySpace).reverse.dropWhile pySpace).reverse

/-- Embeds `safe_text` (feedgen.py lines 18-21) applied to an optional
string (`None` becomes the empty string, otherwise the string is stripped). -/
def safe_text (s : Option Str) : Str :=
  match s with
  | none => []
  | some t => pyStrip t

/-- Embeds `localname` (feedgen.py lines 23-28): the part of a tag after the
first closing brace, or the whole tag when no brace occurs. -/
def localname (tag : Str) : Str :=
  if tag.any (fun c => decide (c = '\x7d')) then
    (tag.dropWhile (fun c => decide (c ≠ '\x7d'))).drop 1
  else tag

/-- ASCII lowercasing, embedding Python `str.lower()` on the tag and
entity material the program compares. -/
def lowerS (s : Str) : Str := s.map Char.toLower

/-- Does `pat` occur as a prefix of `s`? -/
def hasPre : Str → Str → Bool
  | [], _ => true
  | _ :: _, [] => false
  | p :: ps, c :: cs => p = c && hasPre ps cs

/-- Does `pat` occur as a (contiguous) substring of `s`? -/
def hasSub (pat : Str) (s : Str) : Bool :=
  match s with
  | [] => pat.isEmpty
  | _ :: cs => hasPre pat s || hasSub pat cs

/-- Decodes one HTML character reference directly after an ampersand.
Modelled from the Python stdlib `html.unescape` (an external collaborator of
feedgen.py), restricted to the named entities the program's inputs use
(`amp`, `lt`, `gt`, `quot`, `apos`, with and without a trailing semicolon
where Python accepts that) plus decimal numeric references; like the stdlib
it performs a single non-recursive pass. Returns the decoded character and
the remaining input. -/
def tryEntity (cs : Str) : Option (Char × Str) :=
  if hasPre (strL "amp;") cs then some ('&', cs.drop 4)
  else if hasPre (strL "lt;") cs then some ('<', cs.drop 3)
  else if hasPre (strL "gt;") cs then some ('>', cs.drop 3)
  else if hasPre (strL "quot;") cs then some ('"', cs.drop 5)
  else if hasPre (strL "apos;") cs then some ('\x27', cs.drop 5)
  else match cs with
  | '#' :: rest =>
    let ds := rest.takeWhile Char.isDigit
    let after := rest.dropWhile Char.isDigit
    match after with
    | ';' :: tl =>
      if ds.length = 0 || 1114111 < ds.foldl (fun n c => 10 * n + (c.toNat - 48)) 0 then none
      else some (Char.ofNat (ds.foldl (fun n c => 10 * n + (c.toNat - 48)) 0), tl)
    | _ => none
  | _ =>
    if hasPre (strL "amp") cs then some ('&', cs.drop 3)
    else if hasPre (strL "lt") cs then some ('<', cs.drop 2)
    else if hasPre (strL "gt") cs then some ('>', cs.drop 2)
    else if hasPre (strL "quot") cs then some ('"', cs.drop 4)
    else none

/-- Fuel-indexed worker for `unescape`; the fuel only needs to dominate the
input length, each step consumes at least one character. -/
def unescapeAux : Nat → Str → Str
  | 0, cs => cs
  | fuel + 1, [] => []
  | fuel + 1, c :: cs =>
    if c = '&' then
      match tryEntity cs with
      | some (d, rest) => d :: unescapeAux fuel rest
      | none => '&' :: unescapeAux fuel cs
    else c :: unescapeAux fuel cs

/-- Single-pass HTML entity decoding, modelling the stdlib `html.unescape`
call in `clean_html` (feedgen.py line 107). -/
def unescape (s : Str) : Str := unescapeAux s.length s

/-- Splits a list at the first `'>'`: returns the part before it and the
part after it, or `none` when no `'>'` occurs. -/
def splitFirstGt (cs : Str) : Option (Str × Str) :=
  match cs.dropWhile (fun c => c ≠ '>') with
  | [] => none
  | _ :: tl => some (cs.takeWhile (fun c => c ≠ '>'), tl)

/-- Fuel-indexed worker for one pass of the tag-stripping substitution. -/
def stripTagsAux : Nat → Str → Str
  | 0, cs => cs
  | fuel + 1, [] => []
  | fuel + 1, c :: cs =>
    if c = '<' then
      match splitFirstGt cs with
      | some (a, b) => if a.isEmpty then '<' :: stripTagsAux fuel cs
                       else ' ' :: stripTagsAux fuel b
      | none => '<' :: stripTagsAux fuel cs
    else c :: stripTagsAux fuel cs

/-- One pass of `re.sub(r"<[^>]+>", " ", ...)` (feedgen.py lines 113-114):
each leftmost occurrence of `'<'`, a nonempty run of non-`'>'` characters,
then `'>'`, is replaced by one space. -/
def stripTagsPass (s : Str) : Str := stripTagsAux s.length s

/-- Worker for whitespace collapsing: the boolean records whether the
previous character belonged to a whitespace run already emitted as one
space. -/
def collapseAux : Str → Bool → Str
  | [], _ => []
  | c :: cs, inRun =>
    if pySpace c then
      if inRun then collapseAux cs true else ' ' :: collapseAux cs true
    else c :: collapseAux cs false

/-- Embeds `re.sub(r"\s+", " ", ...)` (feedgen.py line 116): every maximal
whitespace run becomes a single space. -/
def collapseWs (s : Str) : Str := collapseAux s false

/-- Case-insensitive literal match of `pat` at the head of `s`. -/
def hasPreCI (pat : Str) (s : Str) : Bool := hasPre (lowerS pat) (lowerS s)

/-- All positions of `s` (as suffixes paired with their index). -/
def suffixesIdx (s : Str) : List (Nat × Str) :=
  (List.range s.length).map (fun i => (i, s.drop i))

/-- Attempts the quoted part `["\x27]([^"\x27]+)["\x27]` of the image regex
at the head of `cs`: an opening quote, a nonempty run of non-quote
characters, a closing quote. Returns the captured group. -/
def matchQuoted (cs : Str) : Option Str :=
  match cs with
  | q :: rest =>
    if q = '"' || q = '\x27' then
      let body := rest.takeWhile (fun c => c ≠ '"' && c ≠ '\x27')
      match rest.dropWhile (fun c => c ≠ '"' && c ≠ '\x27') with
      | [] => none
      | _ :: _ => if body.isEmpty then none else some body
    else none
  | [] => none

/-- Given the region directly after a matched `<img`, finds the first image
`src` capture reachable by the greedy `[^>]+src=` part of the regex: the
`src=` literal must start after at least one character, inside the `'>'`-free
zone, and greediness prefers the rightmost such occurrence whose quoted part
matches. -/
def imgSrcInRegion (region : Str) : Option Str :=
  let zone := region.takeWhile (fun c => c ≠ '>')
  let cands := (suffixesIdx region).filter
    (fun p => decide (1 ≤ p.1) && decide (p.1 + 4 ≤ zone.length) &&
      hasPreCI (strL "src=") p.2)
  (cands.reverse.filterMap (fun p => matchQuoted (p.2.drop 4))).head?

/-- Embeds the `re.search` for an image URL in `clean_html` (feedgen.py
line 109): pattern `<img[^>]+src=["\x27]([^"\x27]+)["\x27]`, case
insensitive; the leftmost `<img` occurrence admitting a completion wins. -/
def findImg (s : Str) : Option Str :=
  ((suffixesIdx s).filterMap
    (fun p => if hasPreCI (strL "<img") p.2 then imgSrcInRegion (p.2.drop 4)
              else none)).head?

/-- Embeds `clean_html` (feedgen.py lines 99-119): unescape first, extract
the first image source, strip tags twice, collapse whitespace, strip, and
truncate the excerpt to 300 characters. -/
def clean_html (text : Str) : Str × Option Str :=
  if text.isEmpty then ([], none)
  else
    let raw := unescape text
    let image_url := findImg raw
    let clean1 := stripTagsPass raw
    let clean2 := stripTagsPass clean1
    let cleanF := pyStrip (collapseWs clean2)
    (cleanF.take 300, image_url)

/-- Embeds `guess_image_mime` (feedgen.py lines 87-97). -/
def guess_image_mime (url : Str) : Str :=
  let u := lowerS url
  if hasPre (strL "gnp.") u.reverse then strL "image/png"
  else if hasPre (strL "pbew.") u.reverse then strL "image/webp"
  else if hasPre (strL "fig.") u.reverse then strL "image/gif"
  else if hasPre (strL "gvs.") u.reverse then strL "image/svg+xml"
  else strL "image/jpeg"

/-! ### SHA-256 and `hash_id`

`hash_id` (feedgen.py lines 52-57) feeds each part's UTF-8 bytes followed by
a newline byte into a SHA-256 digest and returns the lowercase hex digest.
The digest itself is the stdlib `hashlib.sha256`, modelled here by a full
executable SHA-256 over byte lists. -/

/-- UTF-8 encoding of one character (Python `str.encode("utf-8")`;
`errors="ignore"` never fires since Lean `Char` excludes surrogates). -/
def utf8Char (c : Char) : List Nat :=
  let n := c.toNat
  if n < 128 then [n]
  else if n < 2048 then [192 + n / 64, 128 + n % 64]
  else if n < 65536 then [224 + n / 4096, 128 + (n / 64) % 64, 128 + n % 64]
  else [240 + n / 262144, 128 + (n / 4096) % 64, 128 + (n / 64) % 64, 128 + n % 64]

/-- UTF-8 encoding of an embedded string. -/
def utf8 (s : Str) : List Nat := s.flatMap utf8Char

/-- Truncation of a machine word to 32 bits. -/
def m32 (n : Nat) : Nat := n % 4294967296

/-- 32-bit right rotation (argument assumed below `2 ^ 32`). -/
def rotr (n k : Nat) : Nat := m32 ((n >>> k) ||| (n <<< (32 - k)))

/-- SHA-256 `Ch` function. -/
def shaCh (x y z : Nat) : Nat := (x &&& y) ^^^ ((x ^^^ 4294967295) &&& z)

/-- SHA-256 `Maj` function. -/
def shaMaj (x y z : Nat) : Nat := (x &&& y) ^^^ (x &&& z) ^^^ (y &&& z)

/-- SHA-256 big Sigma-0. -/
def shaS0 (x : Nat) : Nat := rotr x 2 ^^^ rotr x 13 ^^^ rotr x 22

/-- SHA-256 big Sigma-1. -/
def shaS1 (x : Nat) : Nat := rotr x 6 ^^^ rotr x 11 ^^^ rotr x 25

/-- SHA-256 small sigma-0. -/
def shas0 (x : Nat) : Nat := rotr x 7 ^^^ rotr x 18 ^^^ (x >>> 3)

/-- SHA-256 small sigma-1. -/
def shas1 (x : Nat) : Nat := rotr x 17 ^^^ rotr x 19 ^^^ (x >>> 10)

/-- The 64 SHA-256 round constants. -/
def shaK : List Nat :=
  [1116352408, 1899447441, 3049323471, 3921009573, 961987163, 1508970993,
   2453635748, 2870763221, 3624381080, 310598401, 607225278, 1426881987,
   1925078388, 2162078206, 2614888103, 3248222580, 3835390401, 4022224774,
   264347078, 604807628, 770255983, 1249150122, 1555081692, 1996064986,
   2554220882, 2821834349, 2952996808, 3210313671, 3336571891, 3584528711,
   113926993, 338241895, 666307205, 773529912, 1294757372, 1396182291,
   1695183700, 1986661051, 2177026350, 2456956037, 2730485921, 2820302411,
   3259730800, 3345764771, 3516065817, 3600352804, 4094571909, 275423344,
   430227734, 506948616, 659060556, 883997877, 958139571, 1322822218,
   1537002063, 1747873779, 1955562222, 2024104815, 2227730452, 2361852424,
   2428436474, 2756734187, 3204031479, 3329325298]

/-- The SHA-256 initial hash value. -/
def shaH0 : List Nat :=
  [1779033703, 3144134277, 1013904242, 2773480762,
   1359893119, 2600822924, 528734635, 1541459225]

/-- SHA-256 padding: append `0x80`, zero bytes to 56 mod 64, then the
original bit length as 8 big-endian bytes. -/
def shaPad (msg : List Nat) : List Nat :=
  let L := msg.length
  let zeros := (119 - L % 64) % 64
  msg ++ 128 :: List.replicate zeros 0 ++
    (List.range 8).map (fun i => ((8 * L) >>> (8 * (7 - i))) % 256)

/-- Big-endian grouping of bytes into 32-bit words, four at a time. -/
def words32 : List Nat → List Nat
  | b0 :: b1 :: b2 :: b3 :: rest =>
    (b0 * 16777216 + b1 * 65536 + b2 * 256 + b3) :: words32 rest
  | _ => []

/-- Message-schedule extension: prepends `n` further words onto the reversed
schedule accumulator (most recent word first), then restores order. -/
def schedAux : Nat → List Nat → List Nat
  | 0, racc => racc.reverse
  | n + 1, racc =>
    let g := fun i => racc.getD i 0
    schedAux n (m32 (shas1 (g 1) + g 6 + shas0 (g 14) + g 15) :: racc)

/-- The 64-word message schedule of one chunk. -/
def schedule (first16 : List Nat) : List Nat := schedAux 48 first16.reverse

/-- One SHA-256 round: state is the list `[a,b,c,d,e,f,g,h]`. -/
def shaRound (st : List Nat) (kw : Nat × Nat) : List Nat :=
  match st with
  | [a, b, c, d, e, f, g, h] =>
    let t1 := m32 (h + shaS1 e + shaCh e f g + kw.1 + kw.2)
    let t2 := m32 (shaS0 a + shaMaj a b c)
    [m32 (t1 + t2), a, b, c, m32 (d + t1), e, f, g]
  | other => other

/-- Compression of one 64-byte chunk into the running hash value. -/
def shaChunk (hv : List Nat) (chunk : List Nat) : List Nat :=
  let ws := schedule (words32 chunk)
  let fin := (shaK.zip ws).foldl shaRound hv
  (hv.zip fin).map (fun p => m32 (p.1 + p.2))

/-- Fuel-indexed split of a byte list into 64-byte chunks. -/
def chunksAux : Nat → List Nat → List (List Nat)
  | 0, _ => []
  | _ + 1, [] => []
  | fuel + 1, bs => bs.take 64 :: chunksAux fuel (bs.drop 64)

/-- One hex digit (lowercase). -/
def hexChar (n : Nat) : Char :=
  if n < 10 then Char.ofNat (48 + n) else Char.ofNat (87 + n)

/-- Eight-digit lowercase hex rendering of a 32-bit word. -/
def wordHex (w : Nat) : Str :=
  (List.range 8).map (fun i => hexChar ((w >>> (4 * (7 - i))) &&& 15))

/-- SHA-256 lowercase hex digest of a byte list; models
`hashlib.sha256(...).hexdigest()`. -/
def sha256hex (msg : List Nat) : Str :=
  let padded := shaPad msg
  ((chunksAux padded.length padded).foldl shaChunk shaH0).flatMap wordHex

/-- Embeds `hash_id` (feedgen.py lines 52-57): every part contributes its
UTF-8 bytes followed by one newline byte; the result is the hex digest. -/
def hash_id (parts : List Str) : Str :=
  sha256hex (parts.flatMap (fun p => utf8 p ++ [10]))

/-! ### Dates

The program leans on the Python stdlib for dates: `datetime.fromisoformat`,
`email.utils.parsedate_to_datetime`, `email.utils.format_datetime`,
`astimezone`.  They are modelled executably on a concrete date-time record;
the parsers cover the grammar shapes the program feeds them (documented on
each definition). -/

/-- A Python `datetime`: calendar fields plus an optional UTC offset in
minutes (`none` models a naive datetime). -/
structure DT where
  year : Nat
  month : Nat
  day : Nat
  hour : Nat
  minute : Nat
  second : Nat
  offset : Option Int
deriving DecidableEq, Repr

/-- Is `y` a (proleptic Gregorian) leap year? -/
def isLeap (y : Nat) : Bool := y % 4 = 0 && (y % 100 ≠ 0 || y % 400 = 0)

/-- Number of days in month `m` of year `y`. -/
def daysInMonth (y m : Nat) : Nat :=
  if m = 2 then (if isLeap y then 29 else 28)
  else if m = 4 || m = 6 || m = 9 || m = 11 then 30
  else 31

/-- Days since 1970-01-01 of a civil date (Hinnant's algorithm). -/
def daysFromCivil (y m d : Nat) : Int :=
  let yy : Int := (y : Int) - (if m ≤ 2 then 1 else 0)
  let era : Int := Int.fdiv yy 400
  let yoe : Int := yy - era * 400
  let mp : Int := ((m : Int) + 9) % 12
  let doy : Int := (153 * mp + 2) / 5 + (d : Int) - 1
  let doe : Int := yoe * 365 + yoe / 4 - yoe / 100 + doy
  era * 146097 + doe - 719468

/-- Civil date of a days-since-epoch count (Hinnant's algorithm). -/
def civilFromDays (z0 : Int) : Int × Nat × Nat :=
  let z : Int := z0 + 719468
  let era : Int := Int.fdiv z 146097
  let doe : Nat := (z - era * 146097).toNat
  let yoe : Nat := (doe - doe / 1460 + doe / 36524 - doe / 146096) / 365
  let doy : Nat := doe - (365 * yoe + yoe / 4 - yoe / 100)
  let mp : Nat := (5 * doy + 2) / 153
  let d : Nat := doy - (153 * mp + 2) / 5 + 1
  let m : Nat := if mp < 10 then mp + 3 else mp - 9
  (era * 400 + yoe + (if m ≤ 2 then 1 else 0), m, d)

/-- The instant denoted by a `DT`, as seconds since the epoch (a naive value
is read with offset zero, as the program always does after `replace`). -/
def instant (d : DT) : Int :=
  daysFromCivil d.year d.month d.day * 86400 +
    (d.hour * 3600 + d.minute * 60 + d.second : Nat) - d.offset.getD 0 * 60

/-- The UTC `DT` (offset zero) denoting a given epoch instant. -/
def dtOfInstant (t : Int) : DT :=
  let days := Int.fdiv t 86400
  let rem := (t - days * 86400).toNat
  let c := civilFromDays days
  ⟨c.1.toNat, c.2.1, c.2.2, rem / 3600, rem % 3600 / 60, rem % 60, some 0⟩

/-- Models `d.astimezone(datetime.timezone.utc)` on an aware datetime: an
offset-zero datetime of the same instant (when the offset is already zero
the fields are untouched, as in CPython). -/
def astimezoneUTC (d : DT) : DT :=
  if d.offset.getD 0 = 0 then { d with offset := some 0 }
  else dtOfInstant (instant d)

/-- Zero-padded two-digit decimal rendering. -/
def dig2 (n : Nat) : Str := [Char.ofNat (48 + n / 10 % 10), Char.ofNat (48 + n % 10)]

/-- Zero-padded four-digit decimal rendering. -/
def dig4 (n : Nat) : Str :=
  [Char.ofNat (48 + n / 1000 % 10), Char.ofNat (48 + n / 100 % 10),
   Char.ofNat (48 + n / 10 % 10), Char.ofNat (48 + n % 10)]

/-- Abbreviated weekday names, Monday first. -/
def weekdayName (i : Nat) : Str :=
  match i with
  | 0 => strL "Mon" | 1 => strL "Tue" | 2 => strL "Wed" | 3 => strL "Thu"
  | 4 => strL "Fri" | 5 => strL "Sat" | _ => strL "Sun"

/-- Abbreviated month names, 1-based. -/
def monthName (m : Nat) : Str :=
  match m with
  | 1 => strL "Jan" | 2 => strL "Feb" | 3 => strL "Mar" | 4 => strL "Apr"
  | 5 => strL "May" | 6 => strL "Jun" | 7 => strL "Jul" | 8 => strL "Aug"
  | 9 => strL "Sep" | 10 => strL "Oct" | 11 => strL "Nov" | _ => strL "Dec"

/-- Weekday index (Monday = 0) of a days-since-epoch count; 1970-01-01 was a
Thursday. -/
def weekdayOf (days : Int) : Nat := ((days + 3).emod 7).toNat

/-- Models `email.utils.format_datetime`: the RFC 2822 wire format
`Www, DD Mon YYYY HH:MM:SS +HHMM` (a naive datetime renders `-0000`). -/
def format_datetime (d : DT) : Str :=
  let zone : Str :=
    match d.offset with
    | none => strL "-0000"
    | some o =>
      (if o < 0 then '-' else '+') :: (dig2 (o.natAbs / 60) ++ dig2 (o.natAbs % 60))
  weekdayName (weekdayOf (daysFromCivil d.year d.month d.day)) ++ strL ", " ++
    dig2 d.day ++ [' '] ++ monthName d.month ++ [' '] ++ dig4 d.year ++ [' '] ++
    dig2 d.hour ++ [':'] ++ dig2 d.minute ++ [':'] ++ dig2 d.second ++ [' '] ++ zone

/-- The decimal value of a digit character, if it is one. -/
def digitVal (c : Char) : Option Nat :=
  if c.isDigit then some (c.toNat - 48) else none

/-- Reads two decimal digits of `s` starting at index `i`. -/
def read2At (s : Str) (i : Nat) : Option Nat :=
  match s.get? i, s.get? (i + 1) with
  | some a, some b =>
    match digitVal a, digitVal b with
    | some x, some y => some (10 * x + y)
    | _, _ => none
  | _, _ => none

/-- Reads four decimal digits of `s` starting at index `i`. -/
def read4At (s : Str) (i : Nat) : Option Nat :=
  match read2At s i, read2At s (i + 2) with
  | some x, some y => some (100 * x + y)
  | _, _ => none

/-- Is the character at index `i` of `s` equal to `c`? -/
def chAt (s : Str) (i : Nat) (c : Char) : Bool := s.get? i = some c

/-- Parses `YYYY-MM-DD` at the head of `s`, validating ranges as
`datetime` does. -/
def parseIsoDate (s : Str) : Option (Nat × Nat × Nat) :=
  match read4At s 0, read2At s 5, read2At s 8 with
  | some y, some mo, some d =>
    if chAt s 4 '-' && chAt s 7 '-' && decide (1 ≤ mo) && decide (mo ≤ 12) &&
       decide (1 ≤ d) && decide (d ≤ daysInMonth y mo) then some (y, mo, d)
    else none
  | _, _, _ => none

/-- Parses a `±HH:MM` UTC offset (in minutes). -/
def parseIsoOffset (s : Str) : Option Int :=
  match s with
  | sign :: rest =>
    match read2At rest 0, read2At rest 3 with
    | some h, some m =>
      if (sign = '+' || sign = '-') && chAt rest 2 ':' &&
         decide (h ≤ 23) && decide (m ≤ 59) then
        some (if sign = '-' then -((60 * h + m : Nat) : Int) else ((60 * h + m : Nat) : Int))
      else none
    | _, _ => none
  | [] => none

/-- Models `datetime.fromisoformat` (pre-3.11 grammar, as the program's own
`Z` substitution presumes), restricted to the shapes the program can feed
it: `YYYY-MM-DD`, optionally followed by one arbitrary separator character
and `HH:MM` or `HH:MM:SS`, optionally followed by a `±HH:MM` offset.
Field ranges are validated; anything else is a parse failure (`None`
standing for the `ValueError` the program catches). -/
def fromisoformat (s : Str) : Option DT :=
  if s.length = 10 then
    (parseIsoDate s).map (fun c => ⟨c.1, c.2.1, c.2.2, 0, 0, 0, none⟩)
  else if s.length = 16 || s.length = 22 then
    match parseIsoDate s, read2At s 11, read2At s 14 with
    | some c, some h, some mi =>
      if chAt s 13 ':' && decide (h ≤ 23) && decide (mi ≤ 59) then
        if s.length = 16 then some ⟨c.1, c.2.1, c.2.2, h, mi, 0, none⟩
        else (parseIsoOffset (s.drop 16)).map
          (fun o => ⟨c.1, c.2.1, c.2.2, h, mi, 0, some o⟩)
      else none
    | _, _, _ => none
  else if s.length = 19 || s.length = 25 then
    match parseIsoDate s, read2At s 11, read2At s 14, read2At s 17 with
    | some c, some h, some mi, some se =>
      if chAt s 13 ':' && chAt s 16 ':' &&
         decide (h ≤ 23) && decide (mi ≤ 59) && decide (se ≤ 59) then
        if s.length = 19 then some ⟨c.1, c.2.1, c.2.2, h, mi, se, none⟩
        else (parseIsoOffset (s.drop 19)).map
          (fun o => ⟨c.1, c.2.1, c.2.2, h, mi, se, some o⟩)
      else none
    | _, _, _, _ => none
  else none

/-- The RFC2822-resemblance test of feedgen.py line 65: a comma together
with the substring `GMT`, a `+` or a `-`. -/
def passRFC (s : Str) : Bool :=
  s.contains ',' && (hasSub (strL "GMT") s || s.contains '+' || s.contains '-')

/-- The trailing-`Z` substitution of feedgen.py line 70:
`s[:-1] + "+00:00"` when `s` ends with `Z`, else `s` itself. -/
def zsubst (s : Str) : Str :=
  if s.getLast? = some 'Z' then s.dropLast ++ strL "+00:00" else s

/-- Embeds `to_rfc2822` (feedgen.py lines 59-76): strip; empty gives
nothing; an RFC2822-looking string passes through; otherwise try ISO-8601
with the trailing-`Z` substitution, assume UTC when naive, and render the
UTC conversion; any parse failure gives nothing (the `except` arm). -/
def to_rfc2822 (dt_str : Str) : Option Str :=
  let s := pyStrip dt_str
  if s.isEmpty then none
  else if passRFC s then some s
  else
    match fromisoformat (zsubst s) with
    | none => none
    | some d =>
      let d' := if d.offset = none then { d with offset := some 0 } else d
      some (format_datetime (astimezoneUTC d'))

/-- Fuel-indexed whitespace tokenizer. -/
def tokensAux : Nat → Str → List Str
  | 0, _ => []
  | _ + 1, [] => []
  | fuel + 1, s =>
    let s1 := s.dropWhile pySpace
    match s1.takeWhile (fun c => ¬ pySpace c) with
    | [] => []
    | tok => tok :: tokensAux fuel (s1.dropWhile (fun c => ¬ pySpace c))

/-- Whitespace-separated tokens of a string. -/
def tokensOf (s : Str) : List Str := tokensAux s.length s

/-- Month number of an RFC 2822 month-name token (case-insensitive, as in
`email._parseaddr`). -/
def monthNum (t : Str) : Option Nat :=
  let l := lowerS t
  if l = strL "jan" then some 1 else if l = strL "feb" then some 2
  else if l = strL "mar" then some 3 else if l = strL "apr" then some 4
  else if l = strL "may" then some 5 else if l = strL "jun" then some 6
  else if l = strL "jul" then some 7 else if l = strL "aug" then some 8
  else if l = strL "sep" then some 9 else if l = strL "oct" then some 10
  else if l = strL "nov" then some 11 else if l = strL "dec" then some 12
  else none

/-- Reads an all-digit token as a number. -/
def numTok (t : Str) : Option Nat :=
  if t ≠ [] && t.all Char.isDigit then
    some (t.foldl (fun n c => 10 * n + (c.toNat - 48)) 0)
  else none

/-- Parses the `HH:MM:SS` or `HH:MM` time token of an RFC 2822 date. -/
def rfcTime (t : Str) : Option (Nat × Nat × Nat) :=
  if t.length = 8 then
    match read2At t 0, read2At t 3, read2At t 6 with
    | some h, some m, some s =>
      if chAt t 2 ':' && chAt t 5 ':' &&
         decide (h ≤ 23) && decide (m ≤ 59) && decide (s ≤ 59) then some (h, m, s)
      else none
    | _, _, _ => none
  else if t.length = 5 then
    match read2At t 0, read2At t 3 with
    | some h, some m =>
      if chAt t 2 ':' && decide (h ≤ 23) && decide (m ≤ 59) then some (h, m, 0)
      else none
    | _, _ => none
  else none

/-- Parses the zone token of an RFC 2822 date into an offset in minutes;
`none` models the naive result for `-0000` or an unknown alphabetic zone,
following `email.utils.parsedate_to_datetime`. The known zone names of
`email._parseaddr` are covered. -/
def rfcZone (t : Str) : Option Int :=
  let u := lowerS t
  if u = strL "gmt" || u = strL "ut" || u = strL "utc" || u = strL "z" then some 0
  else if u = strL "est" then some (-300) else if u = strL "edt" then some (-240)
  else if u = strL "cst" then some (-360) else if u = strL "cdt" then some (-300)
  else if u = strL "mst" then some (-420) else if u = strL "mdt" then some (-360)
  else if u = strL "pst" then some (-480) else if u = strL "pdt" then some (-420)
  else if t.length = 5 then
    match t with
    | sign :: ds =>
      match read2At ds 0, read2At ds 2 with
      | some h, some m =>
        if (sign = '+' || sign = '-') && ds.all Char.isDigit && decide (m ≤ 59) then
          if sign = '-' && h = 0 && m = 0 then none
          else some (if sign = '-' then -((60 * h + m : Nat) : Int)
                     else ((60 * h + m : Nat) : Int))
        else none
      | _, _ => none
    | [] => none
  else none

/-- Models `email.utils.parsedate_to_datetime` on the grammar the program's
inputs use: an optional `Www,` weekday token, a 1-2 digit day, a month
name, a 4-digit year, an `HH:MM[:SS]` time and an optional zone token.
Returns `none` for anything unparsable (the exception the program
catches); an absent, `-0000` or unknown alphabetic zone yields a naive
result. -/
def parseRFC2822 (s : Str) : Option DT :=
  let toks := tokensOf s
  let toks := match toks with
    | t :: rest => if t.getLast? = some ',' then rest else toks
    | [] => toks
  let core : Option (Nat × Nat × Nat × (Nat × Nat × Nat)) :=
    match toks with
    | dayT :: monT :: yearT :: timeT :: _ =>
      match numTok dayT, monthNum monT, numTok yearT, rfcTime timeT with
      | some d, some mo, some y, some tm =>
        if decide (dayT.length ≤ 2) && decide (yearT.length = 4) &&
           decide (1 ≤ d) && decide (d ≤ daysInMonth y mo) then some (y, mo, d, tm)
        else none
      | _, _, _, _ => none
    | _ => none
  match core with
  | none => none
  | some (y, mo, d, tm) =>
    let zone : Option Int :=
      match toks with
      | _ :: _ :: _ :: _ :: zoneT :: _ => rfcZone zoneT
      | _ => none
    some ⟨y, mo, d, tm.1, tm.2.1, tm.2.2, zone⟩

/-- The epoch datetime 1970-01-01T00:00:00 UTC. -/
def epochDT : DT := ⟨1970, 1, 1, 0, 0, 0, some 0⟩

/-- Embeds `parse_rfc2822_to_dt` (feedgen.py lines 78-85): parse the wire
format, assume UTC when naive, convert to UTC; on any failure return the
epoch. -/
def parse_rfc2822_to_dt (pub_rfc : Str) : DT :=
  match parseRFC2822 pub_rfc with
  | none => epochDT
  | some d =>
    astimezoneUTC (if d.offset = none then { d with offset := some 0 } else d)

/-! ### XML element trees

`xml.etree.ElementTree` elements are modelled as a mutual inductive of
elements and forests (so that all traversals are structural and compute in
the kernel). -/

mutual
/-- An element: tag, attributes, optional text, children. -/
inductive XmlElem : Type where
  | mk : Str → List (Str × Str) → Option Str → XmlForest → XmlElem

/-- A list of sibling elements. -/
inductive XmlForest : Type where
  | nil : XmlForest
  | cons : XmlElem → XmlForest → XmlForest
end

/-- The tag of an element. -/
def tagOf : XmlElem → Str
  | .mk t _ _ _ => t

/-- The attribute list of an element. -/
def attrsOf : XmlElem → List (Str × Str)
  | .mk _ a _ _ => a

/-- The text of an element (`Element.text`). -/
def textOf : XmlElem → Option Str
  | .mk _ _ x _ => x

/-- The children forest of an element. -/
def kidsOf : XmlElem → XmlForest
  | .mk _ _ _ k => k

/-- A forest as a list. -/
def forestList : XmlForest → List XmlElem
  | .nil => []
  | .cons e f => e :: forestList f

/-- A list as a forest. -/
def forestOf : List XmlElem → XmlForest
  | [] => .nil
  | e :: l => .cons e (forestOf l)

/-- The direct children of an element (`list(parent)`). -/
def childrenL (e : XmlElem) : List XmlElem := forestList (kidsOf e)

mutual
/-- Document-order traversal of an element (`Element.iter()`): the element
itself, then its descendants. -/
def iterE : XmlElem → List XmlElem
  | .mk t a x k => .mk t a x k :: iterF k

/-- Document-order traversal of a forest. -/
def iterF : XmlForest → List XmlElem
  | .nil => []
  | .cons e f => iterE e ++ iterF f
end

/-- Attribute lookup (`element.attrib.get(key)`). -/
def attrGet (e : XmlElem) (k : Str) : Option Str :=
  ((attrsOf e).find? (fun p => decide (p.1 = k))).map (fun p => p.2)

/-- Attribute lookup with a default (`element.attrib.get(key, default)`). -/
def attrGetD (e : XmlElem) (k d : Str) : Str := (attrGet e k).getD d

/-- Python truthiness of an optional string: present and non-empty. -/
def truthy (o : Option Str) : Bool :=
  match o with
  | some s => ¬ s.isEmpty
  | none => false

/-- `element.findall(tag)` for a plain tag: direct children with that exact
tag. -/
def findallTag (e : XmlElem) (tag : Str) : List XmlElem :=
  (childrenL e).filter (fun ch => decide (tagOf ch = tag))

/-- `element.find(tag)` for a plain tag: first direct child with that tag. -/
def findTag (e : XmlElem) (tag : Str) : Option XmlElem :=
  (childrenL e).find? (fun ch => decide (tagOf ch = tag))

/-- `element.findtext(tag)` as used by the program: the text of the first
matching child, `none` when there is no match or no text (the program
always wraps the result in `safe_text`, which identifies those cases). -/
def findtextTag (e : XmlElem) (tag : Str) : Option Str :=
  (findTag e tag).bind textOf

/-- Embeds `child_text_by_local` (feedgen.py lines 30-37): the stripped text
of the first direct child whose lowercased local name matches. -/
def child_text_by_local (parent : XmlElem) (name : Str) : Str :=
  match (childrenL parent).find?
      (fun ch => decide (lowerS (localname (tagOf ch)) = lowerS name)) with
  | some ch => safe_text (textOf ch)
  | none => []

/-! ### Feed parsing -/

/-- A normalized feed item, as the dicts built at feedgen.py lines 150-160
and 192-202. -/
structure Item where
  title : Str
  link : Str
  guid : Str
  pubDate : Str
  description : Str
  source : Str
deriving DecidableEq, Repr

/-- Python `a or b` on strings: `b` when `a` is empty. -/
def orS (a b : Str) : Str := if a.isEmpty then b else a

/-- The namespace part used by `parse_atom` (feedgen.py lines 124-126):
`root.tag.split("\x7d")[0] + "\x7d"` when the tag starts with a brace,
otherwise empty. -/
def nsOf (root : XmlElem) : Str :=
  if (tagOf root).head? = some '\x7b' then
    (tagOf root).takeWhile (fun c => c ≠ '\x7d') ++ ['\x7d']
  else []

/-- The link selection of `parse_atom` (feedgen.py lines 131-140): first
`link` child whose `rel` (defaulting to `alternate`) is `alternate` with a
truthy `href`, else the first `link` child's `href` when truthy, else
empty. -/
def atomLink (ns : Str) (entry : XmlElem) : Str :=
  match (findallTag entry (ns ++ strL "link")).find?
      (fun l => decide (attrGetD l (strL "rel") (strL "alternate") = strL "alternate") &&
        truthy (attrGet l (strL "href"))) with
  | some l => (attrGet l (strL "href")).getD []
  | none =>
    match findTag entry (ns ++ strL "link") with
    | some first =>
      if truthy (attrGet first (strL "href")) then (attrGet first (strL "href")).getD []
      else []
    | none => []

/-- The raw published string of an Atom entry (feedgen.py line 142):
`published` text, else `updated` text. -/
def atomRawPub (ns : Str) (entry : XmlElem) : Str :=
  orS (safe_text (findtextTag entry (ns ++ strL "published")))
    (safe_text (findtextTag entry (ns ++ strL "updated")))

/-- The loop body of `parse_atom` for one `entry` element (feedgen.py lines
128-160): the Item when the entry has a truthy title and link, else
nothing. -/
def atomItemOf (now : Str) (ns : Str) (source_name : Str) (entry : XmlElem) :
    Option Item :=
  let title := safe_text (findtextTag entry (ns ++ strL "title"))
  let link := atomLink ns entry
  let pub_rfc := (to_rfc2822 (atomRawPub ns entry)).getD now
  let summary := safe_text (findtextTag entry (ns ++ strL "summary"))
  let content := safe_text (findtextTag entry (ns ++ strL "content"))
  let desc := orS summary content
  if ¬ title.isEmpty && ¬ link.isEmpty then
    some ⟨title, link, link, pub_rfc, desc, source_name⟩
  else none

/-- Embeds `parse_atom` (feedgen.py lines 122-161). The current processing
time enters as the `now` parameter (the `utc_now_rfc2822()` fallback). -/
def parse_atom (now : Str) (root : XmlElem) (source_name : Str) : List Item :=
  let ns := nsOf root
  (findallTag root (ns ++ strL "entry")).filterMap (atomItemOf now ns source_name)

/-- The description selection of `parse_rss` (feedgen.py lines 182-187):
`description` child text, else the stripped text of the first child whose
local name is `encoded` with non-empty stripped text. -/
def rssDesc (it : XmlElem) : Str :=
  let desc := child_text_by_local it (strL "description")
  if desc.isEmpty then
    match (childrenL it).find? (fun ch =>
        decide (lowerS (localname (tagOf ch)) = strL "encoded") &&
        ¬ (safe_text (textOf ch)).isEmpty) with
    | some ch => safe_text (textOf ch)
    | none => []
  else desc

/-- The loop body of `parse_rss` for one `item` element (feedgen.py lines
178-202): the Item when it has a truthy title and link, else nothing. -/
def rssItemOf (now : Str) (source_name : Str) (it : XmlElem) : Option Item :=
  let title := child_text_by_local it (strL "title")
  let link := child_text_by_local it (strL "link")
  let pub := child_text_by_local it (strL "pubDate")
  let desc := rssDesc it
  let pub_rfc := (to_rfc2822 pub).getD now
  if ¬ title.isEmpty && ¬ link.isEmpty then
    some ⟨title, link, link, pub_rfc, desc, source_name⟩
  else none

/-- Embeds `parse_rss` (feedgen.py lines 163-204): first `channel` element
anywhere in the tree by lowercased local name, then every `item` element
anywhere inside it. -/
def parse_rss (now : Str) (root : XmlElem) (source_name : Str) : List Item :=
  match (iterE root).find?
      (fun el => decide (lowerS (localname (tagOf el)) = strL "channel")) with
  | none => []
  | some channel =>
    ((iterE channel).filter
        (fun it => decide (lowerS (localname (tagOf it)) = strL "item"))).filterMap
      (rssItemOf now source_name)

/-- Embeds `parse_rss_or_atom` (feedgen.py lines 206-211) after the
`ET.fromstring` boundary: dispatch on the lowercased local name of the
root. -/
def parse_rss_or_atom (now : Str) (root : XmlElem) (source_name : Str) : List Item :=
  if lowerS (localname (tagOf root)) = strL "feed" then parse_atom now root source_name
  else parse_rss now root source_name

/-! ### Output rendering (`build_rss`, feedgen.py lines 214-272) -/

/-- Element constructor from a children list. -/
def el (tag : Str) (attrs : List (Str × Str)) (text : Option Str)
    (kids : List XmlElem) : XmlElem :=
  .mk tag attrs text (forestOf kids)

/-- The Atom namespace constant of feedgen.py line 12. -/
def atomNS : Str := strL "http://www.w3.org/2005/Atom"

/-- The per-item rendering of `build_rss` (feedgen.py lines 243-270). -/
def renderItem (x : Item) : XmlElem :=
  let link := pyStrip x.link
  let cleaned := clean_html (pyStrip x.description)
  let src := pyStrip x.source
  let combined := if src.isEmpty then cleaned.1
    else '\x5b' :: src ++ '\x5d' :: ' ' :: cleaned.1
  let base :=
    [el (strL "title") [] (some (pyStrip x.title)) [],
     el (strL "link") [] (some link) [],
     el (strL "guid") [] (some link) [],
     el (strL "pubDate") [] (some (pyStrip x.pubDate)) [],
     el (strL "description") [] (some combined) []]
  el (strL "item") [] none
    (match cleaned.2 with
     | some image_url =>
       base ++ [el (strL "enclosure")
         [(strL "url", image_url), (strL "type", guess_image_mime image_url)] none []]
     | none => base)

/-- The feed-level configuration document (`feeds/sources.json` minus the
source list), fields optional as for a Python dict. -/
structure Config where
  title : Option Str
  siteUrl : Option Str
  feedUrl : Option Str
  maxItemsTotal : Option Int
deriving DecidableEq, Repr

/-- Embeds `build_rss` (feedgen.py lines 214-272) up to serialization: the
output element tree. `now` is the `utc_now_rfc2822()` value used for
`lastBuildDate`. -/
def build_rss (cfg : Config) (now : Str) (items : List Item) : XmlElem :=
  let title := safe_text cfg.title
  let site_url := safe_text cfg.siteUrl
  let feed_url := safe_text cfg.feedUrl
  let head :=
    [el (strL "title") [] (some title) [],
     el (strL "link") [] (some site_url) [],
     el (strL "description") []
       (some (strL "Aggregated feed generated by myrss-feed-gen101")) [],
     el (strL "language") [] (some (strL "en")) [],
     el (strL "lastBuildDate") [] (some now) []]
  let selfLink :=
    if ¬ feed_url.isEmpty then
      [el ('\x7b' :: atomNS ++ ['\x7d'] ++ strL "link")
        [(strL "href", feed_url), (strL "rel", strL "self"),
         (strL "type", strL "application/rss+xml")] none []]
    else []
  el (strL "rss") [(strL "version", strL "2.0")] none
    [el (strL "channel") [] none (head ++ selfLink ++ items.map renderItem)]

/-! ### The orchestration loop (`main`, feedgen.py lines 274-320) -/

/-- What the external transport and the `ET.fromstring` boundary produce for
one source in one run: a transport failure (`HTTPError`/`URLError`), a
structural XML parse failure (`ET.ParseError`), or a parsed document
root. -/
inductive SrcOutcome : Type where
  | transportErr : SrcOutcome
  | malformed : SrcOutcome
  | doc : XmlElem → SrcOutcome

/-- One configured source together with this run's external outcome for its
URL. -/
structure SourceCfg where
  name : Option Str
  url : Option Str
  outcome : SrcOutcome

/-- Embeds the per-source loop of `main` (feedgen.py lines 287-300):
collected items in order, the `ok_sources` count, and the logged warnings
as (name, url) pairs. A missing or empty URL skips the source silently;
a transport or parse failure logs a warning and skips it; a parsed document
contributes its items and counts as ok if it produced any. -/
def processSources (now : Str) : List SourceCfg → List Item × Nat × List (Str × Str)
  | [] => ([], 0, [])
  | src :: rest =>
    let r := processSources now rest
    let name := orS (safe_text src.name) (strL "Source")
    let url := safe_text src.url
    if url.isEmpty then r
    else
      match src.outcome with
      | .doc root =>
        let items := parse_rss_or_atom now root name
        (items ++ r.1, (if ¬ items.isEmpty then 1 else 0) + r.2.1, r.2.2)
      | .transportErr => (r.1, r.2.1, (name, url) :: r.2.2)
      | .malformed => (r.1, r.2.1, (name, url) :: r.2.2)

/-- The deduplication key of `main` (feedgen.py line 306):
`hash_id(it.get("guid", ""), it.get("link", ""))`. -/
def dedupeKey (it : Item) : Str := hash_id [it.guid, it.link]

/-- Worker for the dedup loop, carrying the `seen` key set. -/
def dedupeAux (seen : List Str) : List Item → List Item
  | [] => []
  | it :: rest =>
    let key := dedupeKey it
    if key ∈ seen then dedupeAux seen rest
    else it :: dedupeAux (key :: seen) rest

/-- Embeds the dedup loop of `main` (feedgen.py lines 302-310). -/
def dedupe (l : List Item) : List Item := dedupeAux [] l

/-- The sort key of `main` line 313, as a comparable instant. -/
def itemInstant (x : Item) : Int := instant (parse_rfc2822_to_dt (pyStrip x.pubDate))

/-- The descending ordering used by `uniq.sort(key=..., reverse=True)`. -/
def itemGE (a b : Item) : Prop := itemInstant b ≤ itemInstant a

instance : DecidableRel itemGE := fun a b => Int.decLe _ _

instance : IsTotal Item itemGE := ⟨fun a b => le_total (itemInstant b) (itemInstant a)⟩

instance : IsTrans Item itemGE := ⟨fun _ _ _ h1 h2 => le_trans h2 h1⟩

/-- Embeds `uniq.sort(key=lambda x: parse_rfc2822_to_dt(...), reverse=True)`
(feedgen.py line 313): Python's sort is stable, and a stable descending
sort is insertion sort along `itemGE`. -/
def sortNewestFirst (l : List Item) : List Item := List.insertionSort itemGE l

/-- Python slice `l[:n]` for an integer bound (negative bounds count from
the end). -/
def sliceTo (n : Int) (l : List Item) : List Item :=
  if n < 0 then l.take (l.length - n.natAbs) else l.take n.toNat

/-- `int(cfg.get("max_items_total", 120))` (feedgen.py line 281). -/
def maxTotal (cfg : Config) : Int := cfg.maxItemsTotal.getD 120

/-- The post-collection pipeline of `main` (feedgen.py lines 302-314):
dedupe, sort newest first, truncate. -/
def afterCollect (cfg : Config) (collected : List Item) : List Item :=
  sliceTo (maxTotal cfg) (sortNewestFirst (dedupe collected))

/-! ### Specification-side definitions

These follow the wording of the specification claims, to be compared with
the definitions translated from the source. -/

mutual
/-- Re-namespacing of an element tree: every element's tag is replaced by
`\x7b g tag \x7d localname tag`, modelling "the same document under any
choice of namespace prefixes". Attributes, text and structure are kept. -/
def retagE (g : Str → Str) : XmlElem → XmlElem
  | .mk t a x k => .mk ('\x7b' :: g t ++ '\x7d' :: localname t) a x (retagF g k)

/-- Re-namespacing of a forest. -/
def retagF (g : Str → Str) : XmlForest → XmlForest
  | .nil => .nil
  | .cons e f => .cons (retagE g e) (retagF g f)
end

/-- Claim C6's qualification of an Atom entry: non-empty title and a
link. -/
def atomQualifies (ns : Str) (entry : XmlElem) : Bool :=
  ¬ (safe_text (findtextTag entry (ns ++ strL "title"))).isEmpty &&
  ¬ (atomLink ns entry).isEmpty

/-- Claim C6's Item for a qualifying Atom entry: title text; the selected
link; guid equal to the link; published from `published` else `updated`;
description from `summary` else `content`. -/
def atomBuild (now : Str) (ns : Str) (source_name : Str) (entry : XmlElem) : Item :=
  { title := safe_text (findtextTag entry (ns ++ strL "title"))
    link := atomLink ns entry
    guid := atomLink ns entry
    pubDate := (to_rfc2822 (atomRawPub ns entry)).getD now
    description := orS (safe_text (findtextTag entry (ns ++ strL "summary")))
      (safe_text (findtextTag entry (ns ++ strL "content")))
    source := source_name }

/-- Claim C6's reading of the Atom extractor: exactly one Item per
qualifying entry, in document order. -/
def atomSpec (now : Str) (root : XmlElem) (source_name : Str) : List Item :=
  ((findallTag root (nsOf root ++ strL "entry")).filter
      (atomQualifies (nsOf root))).map (atomBuild now (nsOf root) source_name)

/-- Claim C7's qualification of an RSS item element: non-empty title and
link by local-name child lookup. -/
def rssQualifies (it : XmlElem) : Bool :=
  ¬ (child_text_by_local it (strL "title")).isEmpty &&
  ¬ (child_text_by_local it (strL "link")).isEmpty

/-- Claim C7's Item for a qualifying RSS item element. -/
def rssBuild (now : Str) (source_name : Str) (it : XmlElem) : Item :=
  { title := child_text_by_local it (strL "title")
    link := child_text_by_local it (strL "link")
    guid := child_text_by_local it (strL "link")
    pubDate := (to_rfc2822 (child_text_by_local it (strL "pubDate"))).getD now
    description := rssDesc it
    source := source_name }

/-- Claim C7's reading of the RSS extractor: locate the first element whose
local name is `channel` anywhere in the tree, then extract every
qualifying element whose local name is `item` anywhere inside it. -/
def rssSpec (now : Str) (root : XmlElem) (source_name : Str) : List Item :=
  match (iterE root).find?
      (fun e => decide (lowerS (localname (tagOf e)) = strL "channel")) with
  | none => []
  | some channel =>
    (((iterE channel).filter
        (fun it => decide (lowerS (localname (tagOf it)) = strL "item"))).filter
      rssQualifies).map (rssBuild now source_name)

/-- Claim C9's identity key: the SHA-256 digest of the ordered pair (guid,
link), newline-separated. -/
def claimKey (it : Item) : Str :=
  sha256hex (utf8 it.guid ++ 10 :: utf8 it.link ++ [10])

/-- Fuel-indexed "first occurrence per key" function of claim C9. -/
def firstOccsAux : Nat → List Item → List Item
  | 0, _ => []
  | _ + 1, [] => []
  | fuel + 1, x :: xs =>
    x :: firstOccsAux fuel (xs.filter (fun y => decide (claimKey y ≠ claimKey x)))

/-- Claim C9's deduplication: keep each list element exactly when no
earlier element has the same identity key, preserving order. -/
def firstOccs (l : List Item) : List Item := firstOccsAux l.length l

/-- A source that contributes in this run: configured URL and a parsed
document. -/
def sourceGood (src : SourceCfg) : Bool :=
  ¬ (safe_text src.url).isEmpty &&
  match src.outcome with
  | .doc _ => true
  | _ => false

/-- A source that fails in this run: configured URL and a transport error
or malformed document. -/
def sourceFailed (src : SourceCfg) : Bool :=
  ¬ (safe_text src.url).isEmpty &&
  match src.outcome with
  | .doc _ => false
  | _ => true

/-- The display label of a source (`name` defaulting to `Source`). -/
def srcLabel (src : SourceCfg) : Str := orS (safe_text src.name) (strL "Source")

/-- The items one source contributes: its parsed document's items when it
is good, nothing otherwise. -/
def itemsOfSrc (now : Str) (src : SourceCfg) : List Item :=
  match src.outcome with
  | .doc root => if ¬ (safe_text src.url).isEmpty then
      parse_rss_or_atom now root (srcLabel src) else []
  | _ => []

/-- The `item` elements of a rendered document, in document order. -/
def itemElems (root : XmlElem) : List XmlElem :=
  (iterE root).filter (fun e => decide (tagOf e = strL "item"))

/-! ### Helper lemmas -/

theorem filterMap_if {α β : Type} (p : α → Bool) (g : α → β) (f : α → Option β)
    (l : List α) (hf : ∀ e, f e = if p e then some (g e) else none) :
    l.filterMap f = (l.filter p).map g := by
  induction l with
  | nil => rfl
  | cons a l ih =>
    by_cases hp : p a
    · simp [List.filterMap_cons, List.filter_cons, hf a, hp, ih]
    · simp [List.filterMap_cons, List.filter_cons, hf a, hp, ih]

theorem claimKey_eq (it : Item) : claimKey it = dedupeKey it := by
  simp [claimKey, dedupeKey, hash_id, List.flatMap_cons]

theorem firstOccsAux_fuel : ∀ f1 f2 : Nat, ∀ l : List Item,
    l.length ≤ f1 → l.length ≤ f2 → firstOccsAux f1 l = firstOccsAux f2 l := by
  intro f1
  induction f1 with
  | zero =>
    intro f2 l h1 _
    have : l = [] := List.eq_nil_of_length_eq_zero (Nat.le_zero.mp h1)
    subst this
    cases f2 <;> rfl
  | succ f ih =>
    intro f2 l h1 h2
    cases l with
    | nil => cases f2 <;> rfl
    | cons x xs =>
      cases f2 with
      | zero => simp at h2
      | succ f2' =>
        simp only [firstOccsAux]
        congr 1
        exact ih f2' _
          (le_trans (List.length_filter_le _ _) (Nat.le_of_succ_le_succ h1))
          (le_trans (List.length_filter_le _ _) (Nat.le_of_succ_le_succ h2))

theorem dedupeAux_firstOccs : ∀ fuel : Nat, ∀ l : List Item, ∀ seen : List Str,
    l.length ≤ fuel →
    dedupeAux seen l = firstOccsAux fuel (l.filter (fun x => decide (dedupeKey x ∉ seen))) := by
  intro fuel
  induction fuel with
  | zero =>
    intro l seen h
    have : l = [] := List.eq_nil_of_length_eq_zero (Nat.le_zero.mp h)
    subst this
    rfl
  | succ f ih =>
    intro l seen h
    cases l with
    | nil => rfl
    | cons x xs =>
      by_cases hk : dedupeKey x ∈ seen
      · have hx : (fun x => decide (dedupeKey x ∉ seen)) x = false := by simp [hk]
        simp only [dedupeAux, if_pos hk, List.filter_cons, hx, Bool.false_eq_true,
          if_neg (by simp : ¬ False)]
        rw [ih xs seen (Nat.le_of_succ_le_succ h)]
        exact firstOccsAux_fuel _ _ _
          (le_trans (List.length_filter_le _ _) (Nat.le_of_succ_le_succ h))
          (le_trans (List.length_filter_le _ _) (Nat.le_of_succ_le_succ h).step)
      · have hx : (fun x => decide (dedupeKey x ∉ seen)) x = true := by simp [hk]
        simp only [dedupeAux, if_neg hk, List.filter_cons, hx, if_pos trivial]
        simp only [firstOccsAux]
        congr 1
        rw [List.filter_filter, ih xs (dedupeKey x :: seen) (Nat.le_of_succ_le_succ h)]
        congr 1
        apply List.filter_congr
        intro y _
        simp [claimKey_eq, List.mem_cons, and_comm, eq_comm]

theorem dedupeAux_pairwise : ∀ l : List Item, ∀ seen : List Str,
    (dedupeAux seen l).Pairwise (fun a b => dedupeKey a ≠ dedupeKey b) ∧
    (∀ y ∈ dedupeAux seen l, dedupeKey y ∉ seen) := by
  intro l
  induction l with
  | nil => intro seen; simp [dedupeAux]
  | cons x xs ih =>
    intro seen
    by_cases hk : dedupeKey x ∈ seen
    · simpa [dedupeAux, hk] using ih seen
    · have ih' := ih (dedupeKey x :: seen)
      simp only [dedupeAux, if_neg hk]
      refine ⟨List.Pairwise.cons ?_ ih'.1, ?_⟩
      · intro y hy
        have := ih'.2 y hy
        simp only [List.mem_cons] at this
        push_neg at this
        exact fun hxy => this.1 hxy.symm
      · intro y hy
        rcases List.mem_cons.mp hy with rfl | hy'
        · exact hk
        · have := ih'.2 y hy'
          simp only [List.mem_cons] at this
          push_neg at this
          exact this.2

theorem dedupeAux_fixed : ∀ m : List Item, ∀ seen : List Str,
    m.Pairwise (fun a b => dedupeKey a ≠ dedupeKey b) →
    (∀ y ∈ m, dedupeKey y ∉ seen) → dedupeAux seen m = m := by
  intro m
  induction m with
  | nil => intro seen _ _; rfl
  | cons x xs ih =>
    intro seen hp hs
    have hk : dedupeKey x ∉ seen := hs x (List.mem_cons_self x xs)
    simp only [dedupeAux, if_neg hk]
    congr 1
    refine ih (dedupeKey x :: seen) hp.of_cons ?_
    intro y hy
    simp only [List.mem_cons]
    push_neg
    exact ⟨fun h => (List.rel_of_pairwise_cons hp hy) h.symm, hs y (List.mem_cons_of_mem _ hy)⟩

/-! ### Claim theorems -/

/-- C1 counterexample: on the input `"<"` the excerpt returned by
`clean_html` contains the character `'<'`, so the claim that the cleaned
excerpt never contains `'<'` is false as stated. -/
theorem feedgen_c1_cx : '<' ∈ (clean_html (strL "<")).1 := by decide

/-- C1 (amended): for every input string, `clean_html` returns an excerpt
of at most 300 characters; stray angle brackets that form no complete tag
can survive, but on the doubly-encoded input
`&amp;lt;p&amp;gt;hi&amp;lt;/p&amp;gt;` the excerpt contains no `'<'` and
no `'>'` (entities are decoded first, then tags stripped). -/
theorem feedgen_c1 : ∀ text : Str, (clean_html text).1.length ≤ 300 ∧
    ('<' ∉ (clean_html (strL "&amp;lt;p&amp;gt;hi&amp;lt;/p&amp;gt;")).1 ∧
     '>' ∉ (clean_html (strL "&amp;lt;p&amp;gt;hi&amp;lt;/p&amp;gt;")).1) := by
  intro text
  refine ⟨?_, by decide, by decide⟩
  by_cases h : text.isEmpty
  · simp [clean_html, h]
  · simp only [clean_html, h, Bool.false_eq_true, if_neg (by simp : ¬ False)]
    exact List.length_take_le 300 _

/-- C10: a document without any element whose local name is `channel`
(and whose root is not an Atom `feed`) makes the RSS extractor return the
empty item list rather than raising. -/
theorem feedgen_c10 (now : Str) (root : XmlElem) (name : Str)
    (h1 : localname (tagOf root) ≠ strL "feed")
    (h2 : ∀ e ∈ iterE root, lowerS (localname (tagOf e)) ≠ strL "channel") :
    parse_rss now root name = [] := by
  simp only [parse_rss]
  have : (iterE root).find?
      (fun el => decide (lowerS (localname (tagOf el)) = strL "channel")) = none := by
    rw [List.find?_eq_none]
    intro e he
    simpa using h2 e he
  rw [this]

/-- C10 witness: a concrete `other` document with no `channel` anywhere. -/
theorem feedgen_c10_witness :
    parse_rss (strL "NOW") (el (strL "other") [] none [el (strL "data") [] none []])
      (strL "S") = [] :=
  feedgen_c10 (strL "NOW") _ (strL "S") (by decide) (by decide)

/-- C9: the dedup loop keeps exactly the first occurrence per identity key
(the SHA-256 digest of the newline-separated guid/link pair), preserving
first-seen order, and it is idempotent. -/
theorem feedgen_c9 : ∀ l : List Item,
    dedupe l = firstOccs l ∧ dedupe (dedupe l) = dedupe l := by
  intro l
  constructor
  · have h := dedupeAux_firstOccs l.length l [] le_rfl
    simp only [dedupe, firstOccs]
    rw [h]
    congr 1
    simpa using List.filter_true l
  · have hp := (dedupeAux_pairwise l []).1
    exact dedupeAux_fixed (dedupe l) [] hp (by simp)

theorem processSources_items (now : Str) : ∀ srcs : List SourceCfg,
    (processSources now srcs).1 = srcs.flatMap (itemsOfSrc now) := by
  intro srcs
  induction srcs with
  | nil => rfl
  | cons src rest ih =>
    simp only [processSources, List.flatMap_cons]
    by_cases hu : (safe_text src.url).isEmpty
    · cases ho : src.outcome <;> simp [itemsOfSrc, ho, hu, ih, srcLabel]
    · cases ho : src.outcome <;> simp [itemsOfSrc, ho, hu, ih, srcLabel]

theorem processSources_warns (now : Str) : ∀ srcs : List SourceCfg,
    (processSources now srcs).2.2 =
      (srcs.filter sourceFailed).map (fun s => (srcLabel s, safe_text s.url)) := by
  intro srcs
  induction srcs with
  | nil => rfl
  | cons src rest ih =>
    simp only [processSources, List.filter_cons]
    by_cases hu : (safe_text src.url).isEmpty
    · cases ho : src.outcome <;> simp [sourceFailed, ho, hu, ih, srcLabel]
    · cases ho : src.outcome <;> simp [sourceFailed, ho, hu, ih, srcLabel]

/-- C2: a source whose fetch fails with a transport error or whose bytes
are not well-formed XML only contributes a logged warning: the collected
items are exactly the concatenation of the good sources' items, the
warning list records exactly the failed sources with name and URL, and
removing a failed source from the run changes no collected item — the run
never aborts and every remaining source still contributes. -/
theorem feedgen_c2 (now : Str) (pre post : List SourceCfg) (bad : SourceCfg)
    (hbad : sourceFailed bad = true) :
    (∀ srcs, (processSources now srcs).1 = srcs.flatMap (itemsOfSrc now)) ∧
    (∀ srcs, (processSources now srcs).2.2 =
      (srcs.filter sourceFailed).map (fun s => (srcLabel s, safe_text s.url))) ∧
    (processSources now (pre ++ bad :: post)).1 =
      (processSources now (pre ++ post)).1 ∧
    (processSources now (pre ++ bad :: post)).2.2 =
      (processSources now pre).2.2 ++
        (srcLabel bad, safe_text bad.url) :: (processSources now post).2.2 := by
  have hbadItems : itemsOfSrc now bad = [] := by
    rcases ho : bad.outcome with _ | _ | root
    · simp [itemsOfSrc, ho]
    · simp [itemsOfSrc, ho]
    · exfalso
      simp only [sourceFailed, ho, Bool.and_eq_true] at hbad
      exact absurd hbad.2 (by simp)
  refine ⟨processSources_items now, processSources_warns now, ?_, ?_⟩
  · rw [processSources_items, processSources_items]
    simp [List.flatMap_append, hbadItems]
  · rw [processSources_warns, processSources_warns, processSources_warns]
    simp [List.filter_append, List.filter_cons, hbad]

/-- C2 witness: one good RSS source between two failing sources. -/
theorem feedgen_c2_witness :
    (∀ srcs, (processSources (strL "NOW") srcs).1 = srcs.flatMap (itemsOfSrc (strL "NOW"))) ∧
    (∀ srcs, (processSources (strL "NOW") srcs).2.2 =
      (srcs.filter sourceFailed).map (fun s => (srcLabel s, safe_text s.url))) ∧
    (processSources (strL "NOW")
        ([⟨some (strL "G"), some (strL "http://g"), .doc (el (strL "rss") [] none [])⟩] ++
          ⟨some (strL "B"), some (strL "http://b"), .malformed⟩ ::
          [⟨some (strL "T"), some (strL "http://t"), .transportErr⟩])).1 =
      (processSources (strL "NOW")
        ([⟨some (strL "G"), some (strL "http://g"), .doc (el (strL "rss") [] none [])⟩] ++
          [⟨some (strL "T"), some (strL "http://t"), .transportErr⟩])).1 ∧
    (processSources (strL "NOW")
        ([⟨some (strL "G"), some (strL "http://g"), .doc (el (strL "rss") [] none [])⟩] ++
          ⟨some (strL "B"), some (strL "http://b"), .malformed⟩ ::
          [⟨some (strL "T"), some (strL "http://t"), .transportErr⟩])).2.2 =
      (processSources (strL "NOW")
          [⟨some (strL "G"), some (strL "http://g"), .doc (el (strL "rss") [] none [])⟩]).2.2 ++
        (srcLabel ⟨some (strL "B"), some (strL "http://b"), .malformed⟩,
          safe_text (⟨some (strL "B"), some (strL "http://b"), .malformed⟩ : SourceCfg).url) ::
          (processSources (strL "NOW")
            [⟨some (strL "T"), some (strL "http://t"), .transportErr⟩]).2.2 :=
  feedgen_c2 (strL "NOW") _ _ _ (by decide)

theorem atomItemOf_eq (now ns name : Str) (e : XmlElem) :
    atomItemOf now ns name e =
      if atomQualifies ns e then some (atomBuild now ns name e) else none := rfl

/-- C6: the Atom extractor yields exactly one Item per entry with a
non-empty title and a selected link (first `alternate`-rel link with a
non-empty `href`, falling back to the first link's `href`; published from
`published` else `updated`; description from `summary` else `content`),
entries lacking title or link being skipped; in particular the item count
is the count of qualifying entries. -/
theorem feedgen_c6 (now : Str) (root : XmlElem) (name : Str) :
    parse_atom now root name = atomSpec now root name ∧
    (parse_atom now root name).length =
      (findallTag root (nsOf root ++ strL "entry")).countP
        (atomQualifies (nsOf root)) := by
  have h := filterMap_if (atomQualifies (nsOf root)) (atomBuild now (nsOf root) name)
    (atomItemOf now (nsOf root) name) (findallTag root (nsOf root ++ strL "entry"))
    (fun e => atomItemOf_eq now (nsOf root) name e)
  constructor
  · simpa only [parse_atom, atomSpec] using h
  · simp only [parse_atom] at h ⊢
    rw [h, List.length_map]
    exact (List.countP_eq_length_filter _ _).symm

theorem rssItemOf_eq (now name : Str) (it : XmlElem) :
    rssItemOf now name it =
      if rssQualifies it then some (rssBuild now name it) else none := rfl

theorem atomItemOf_guid {now ns name : Str} {e : XmlElem} {x : Item}
    (h : atomItemOf now ns name e = some x) : x.guid = x.link := by
  rw [atomItemOf_eq] at h
  split_ifs at h
  · cases h; rfl

theorem rssItemOf_guid {now name : Str} {it : XmlElem} {x : Item}
    (h : rssItemOf now name it = some x) : x.guid = x.link := by
  rw [rssItemOf_eq] at h
  split_ifs at h
  · cases h; rfl

theorem parse_guid_eq_link {now : Str} {root : XmlElem} {name : Str} {x : Item}
    (h : x ∈ parse_rss_or_atom now root name) : x.guid = x.link := by
  simp only [parse_rss_or_atom] at h
  split_ifs at h
  · simp only [parse_atom, List.mem_filterMap] at h
    obtain ⟨e, _, he⟩ := h
    exact atomItemOf_guid he
  · simp only [parse_rss] at h
    rcases hch : (iterE root).find?
        (fun el => decide (lowerS (localname (tagOf el)) = strL "channel")) with _ | channel
    · rw [hch] at h; simp at h
    · rw [hch] at h
      simp only [List.mem_filterMap] at h
      obtain ⟨e, _, he⟩ := h
      exact rssItemOf_guid he

theorem forestList_forestOf : ∀ l : List XmlElem, forestList (forestOf l) = l := by
  intro l
  induction l with
  | nil => rfl
  | cons e l ih => simp [forestOf, forestList, ih]

theorem iterF_forestOf : ∀ l : List XmlElem, iterF (forestOf l) = l.flatMap iterE := by
  intro l
  induction l with
  | nil => rfl
  | cons e l ih => simp [forestOf, iterF, ih, List.flatMap_cons]

theorem renderItem_guid (x : Item) :
    findtextTag (renderItem x) (strL "guid") = some (pyStrip x.link) := by
  rcases h : (clean_html (pyStrip x.description)).2 with _ | u <;>
    simp [renderItem, h, findtextTag, findTag, childrenL, kidsOf, el,
      forestList_forestOf, List.find?, tagOf, textOf] <;> rfl

theorem renderItem_link (x : Item) :
    findtextTag (renderItem x) (strL "link") = some (pyStrip x.link) := by
  rcases h : (clean_html (pyStrip x.description)).2 with _ | u <;>
    simp [renderItem, h, findtextTag, findTag, childrenL, kidsOf, el,
      forestList_forestOf, List.find?, tagOf, textOf] <;> rfl

theorem iterE_renderItem_itemsOnly (x : Item) :
    (iterE (renderItem x)).filter (fun e => decide (tagOf e = strL "item")) =
      [renderItem x] := by
  rcases h : (clean_html (pyStrip x.description)).2 with _ | u <;>
    simp [renderItem, h, el, iterE, iterF, forestOf, List.filter, tagOf] <;> rfl

theorem iterE_el (t : Str) (a : List (Str × Str)) (x : Option Str)
    (kids : List XmlElem) :
    iterE (el t a x kids) = el t a x kids :: kids.flatMap iterE := by
  simp [el, iterE, iterF_forestOf]

theorem filter_flatMap_list {α β : Type} (p : β → Bool) (f : α → List β) :
    ∀ l : List α, (l.flatMap f).filter p = l.flatMap (fun a => (f a).filter p) := by
  intro l
  induction l with
  | nil => rfl
  | cons a l ih => simp [List.flatMap_cons, List.filter_append, ih]

theorem filter_item_iterE_el (t : Str) (a : List (Str × Str)) (x : Option Str)
    (kids : List XmlElem) (ht : t ≠ strL "item") :
    (iterE (el t a x kids)).filter (fun e => decide (tagOf e = strL "item")) =
      kids.flatMap (fun k => (iterE k).filter (fun e => decide (tagOf e = strL "item"))) := by
  rw [iterE_el, List.filter_cons, filter_flatMap_list]
  simp [el, tagOf, ht]

theorem itemElems_build (cfg : Config) (now : Str) (items : List Item) :
    itemElems (build_rss cfg now items) = items.map renderItem := by
  have hitems : ∀ l : List Item,
      (l.map renderItem).flatMap
        (fun k => (iterE k).filter (fun e => decide (tagOf e = strL "item"))) =
      l.map renderItem := by
    intro l
    induction l with
    | nil => rfl
    | cons z l ih =>
      simp only [List.map_cons, List.flatMap_cons, ih, iterE_renderItem_itemsOnly]
      rfl
  simp only [itemElems, build_rss]
  rw [filter_item_iterE_el _ _ _ _ (by decide)]
  simp only [List.flatMap_cons, List.flatMap_nil, List.append_nil]
  rw [filter_item_iterE_el _ _ _ _ (by decide)]
  rw [List.flatMap_append, List.flatMap_append, hitems]
  have hhead : ∀ (t : Str) (a : List (Str × Str)) (x : Option Str),
      t ≠ strL "item" →
      (iterE (el t a x [])).filter (fun e => decide (tagOf e = strL "item")) = [] := by
    intro t a x ht
    rw [filter_item_iterE_el _ _ _ _ ht]
    rfl
  rw [show ([el (strL "title") [] (some (safe_text cfg.title)) [],
     el (strL "link") [] (some (safe_text cfg.siteUrl)) [],
     el (strL "description") []
       (some (strL "Aggregated feed generated by myrss-feed-gen101")) [],
     el (strL "language") [] (some (strL "en")) [],
     el (strL "lastBuildDate") [] (some now) []].flatMap
      (fun k => (iterE k).filter (fun e => decide (tagOf e = strL "item")))) = [] by
    simp [List.flatMap_cons, hhead _ _ _ (by decide : (strL "title") ≠ strL "item"),
      hhead _ _ _ (by decide : (strL "link") ≠ strL "item"),
      hhead _ _ _ (by decide : (strL "description") ≠ strL "item"),
      hhead _ _ _ (by decide : (strL "language") ≠ strL "item"),
      hhead _ _ _ (by decide : (strL "lastBuildDate") ≠ strL "item")]]
  by_cases hf : (safe_text cfg.feedUrl).isEmpty
  · simp [hf]
  · rw [if_pos hf]
    rw [List.flatMap_cons, List.flatMap_nil, hhead _ _ _ (by decide)]
    simp

/-- C3: every parsed item's guid equals its link regardless of source
identifiers; the rendered item elements are exactly the per-item renderings
whose `guid` child text equals the item's link; and two parsed items with
the same link deduplicate to the first one. -/
theorem feedgen_c3 (now1 now2 nowR : Str) (root1 root2 : XmlElem) (n1 n2 : Str)
    (x y : Item) (cfg : Config) (items : List Item)
    (hx : x ∈ parse_rss_or_atom now1 root1 n1)
    (hy : y ∈ parse_rss_or_atom now2 root2 n2)
    (hl : x.link = y.link) :
    x.guid = x.link ∧ y.guid = y.link ∧
    itemElems (build_rss cfg nowR items) = items.map renderItem ∧
    findtextTag (renderItem x) (strL "guid") = some (pyStrip x.link) ∧
    dedupe [x, y] = [x] := by
  have hgx := parse_guid_eq_link hx
  have hgy := parse_guid_eq_link hy
  refine ⟨hgx, hgy, itemElems_build cfg nowR items, renderItem_guid x, ?_⟩
  have hkey : dedupeKey y = dedupeKey x := by
    simp only [dedupeKey, hgx, hgy, hl]
  simp [dedupe, dedupeAux, hkey]

/-- The Atom namespace prefix used by the sample documents. -/
def sampleNS : Str := strL "\x7bhttp://www.w3.org/2005/Atom\x7d"

/-- Sample Atom document: one entry titled `A` linking `http://x/1`, no
date. -/
def sampleAtomRoot : XmlElem :=
  el (sampleNS ++ strL "feed") [] none
    [el (sampleNS ++ strL "entry") [] none
      [el (sampleNS ++ strL "title") [] (some (strL "A")) [],
       el (sampleNS ++ strL "link") [(strL "href", strL "http://x/1")] none []]]

/-- Sample RSS document: one item with the same link `http://x/1` but a
different source guid. -/
def sampleRssRoot : XmlElem :=
  el (strL "rss") [(strL "version", strL "2.0")] none
    [el (strL "channel") [] none
      [el (strL "item") [] none
        [el (strL "title") [] (some (strL "B")) [],
         el (strL "link") [] (some (strL "http://x/1")) [],
         el (strL "guid") [] (some (strL "other-guid")) [],
         el (strL "pubDate") []
           (some (strL "Wed, 02 Oct 2024 10:00:00 GMT")) []]]]

/-- The Item parsed from `sampleAtomRoot`. -/
def sampleAtomItem : Item :=
  ⟨strL "A", strL "http://x/1", strL "http://x/1", strL "NOW", [], strL "S1"⟩

/-- The Item parsed from `sampleRssRoot`. -/
def sampleRssItem : Item :=
  ⟨strL "B", strL "http://x/1", strL "http://x/1",
    strL "Wed, 02 Oct 2024 10:00:00 GMT", [], strL "S2"⟩

/-- C3 witness: the sample Atom item and the sample RSS item share the link
`http://x/1` and deduplicate to the Atom item. -/
theorem feedgen_c3_witness :
    sampleAtomItem.guid = sampleAtomItem.link ∧
    sampleRssItem.guid = sampleRssItem.link ∧
    itemElems (build_rss ⟨none, none, none, some 10⟩ (strL "NOW") [sampleAtomItem]) =
      [sampleAtomItem].map renderItem ∧
    findtextTag (renderItem sampleAtomItem) (strL "guid") =
      some (pyStrip sampleAtomItem.link) ∧
    dedupe [sampleAtomItem, sampleRssItem] = [sampleAtomItem] :=
  feedgen_c3 (strL "NOW") (strL "NOW") (strL "NOW") sampleAtomRoot sampleRssRoot
    (strL "S1") (strL "S2") sampleAtomItem sampleRssItem ⟨none, none, none, some 10⟩
    [sampleAtomItem] (by decide) (by decide) (by decide)

theorem filter_orderedInsert_of_ne (k : Int) (x : Item) (hx : itemInstant x ≠ k) :
    ∀ l : List Item,
      (List.orderedInsert itemGE x l).filter (fun y => decide (itemInstant y = k)) =
        l.filter (fun y => decide (itemInstant y = k)) := by
  intro l
  induction l with
  | nil => simp [List.orderedInsert, hx]
  | cons b l ih =>
    by_cases h : itemGE x b
    · simp [List.orderedInsert, h, hx]
    · simp only [List.orderedInsert, if_neg h, List.filter_cons, ih]

theorem filter_orderedInsert_of_eq (k : Int) (x : Item) (hx : itemInstant x = k) :
    ∀ l : List Item,
      (List.orderedInsert itemGE x l).filter (fun y => decide (itemInstant y = k)) =
        x :: l.filter (fun y => decide (itemInstant y = k)) := by
  intro l
  induction l with
  | nil => simp [List.orderedInsert, hx]
  | cons b l ih =>
    by_cases h : itemGE x b
    · simp [List.orderedInsert, h, hx]
    · have hb : itemInstant b ≠ k := by
        simp only [itemGE, not_le] at h
        omega
      simp only [List.orderedInsert, if_neg h, List.filter_cons, ih]
      simp [hb]

theorem filter_insertionSort (k : Int) : ∀ l : List Item,
    (List.insertionSort itemGE l).filter (fun y => decide (itemInstant y = k)) =
      l.filter (fun y => decide (itemInstant y = k)) := by
  intro l
  induction l with
  | nil => rfl
  | cons a l ih =>
    simp only [List.insertionSort]
    by_cases ha : itemInstant a = k
    · rw [filter_orderedInsert_of_eq k a ha, ih, List.filter_cons]
      simp [ha]
    · rw [filter_orderedInsert_of_ne k a ha, ih, List.filter_cons]
      simp [ha]

/-- C8: after collection the items are deduplicated, sorted descending by
parsed publication instant with ties kept in first-seen order (for each
instant, the survivors are an order-preserving prefix of the deduplicated
list's items with that instant), and truncated to at most `maxItemsTotal`
items, the bound defaulting to 120 when unconfigured. -/
theorem feedgen_c8 (cfg : Config) (collected : List Item) (k : Int)
    (h : 0 ≤ maxTotal cfg) :
    List.Sorted itemGE (afterCollect cfg collected) ∧
    ((afterCollect cfg collected).filter (fun y => decide (itemInstant y = k)) =
      ((dedupe collected).filter (fun y => decide (itemInstant y = k))).take
        (((afterCollect cfg collected).filter
          (fun y => decide (itemInstant y = k))).length)) ∧
    (afterCollect cfg collected).length ≤ (maxTotal cfg).toNat ∧
    List.Perm (sortNewestFirst (dedupe collected)) (dedupe collected) ∧
    (cfg.maxItemsTotal = none → maxTotal cfg = 120) := by
  have hslice : afterCollect cfg collected =
      (sortNewestFirst (dedupe collected)).take (maxTotal cfg).toNat := by
    simp only [afterCollect, sliceTo, if_neg (not_lt.mpr h)]
  have hsorted : List.Sorted itemGE (sortNewestFirst (dedupe collected)) :=
    List.sorted_insertionSort itemGE (dedupe collected)
  refine ⟨?_, ?_, ?_, List.perm_insertionSort itemGE (dedupe collected),
    fun h' => by simp [maxTotal, h']⟩
  · rw [hslice]
    exact List.Pairwise.sublist (List.take_sublist _ _) hsorted
  · rw [hslice]
    have hsplit := List.take_append_drop (maxTotal cfg).toNat
      (sortNewestFirst (dedupe collected))
    have : (dedupe collected).filter (fun y => decide (itemInstant y = k)) =
        ((sortNewestFirst (dedupe collected)).take (maxTotal cfg).toNat).filter
          (fun y => decide (itemInstant y = k)) ++
        ((sortNewestFirst (dedupe collected)).drop (maxTotal cfg).toNat).filter
          (fun y => decide (itemInstant y = k)) := by
      rw [← List.filter_append, hsplit]
      simp only [sortNewestFirst]
      exact (filter_insertionSort k _).symm
    rw [this, List.take_left]
  · rw [hslice]
    exact List.length_take_le _ _

/-- C8 witness: three items with mixed dates, bound 2. -/
theorem feedgen_c8_witness :
    List.Sorted itemGE (afterCollect ⟨none, none, none, some 2⟩
      [sampleAtomItem, sampleRssItem]) ∧
    ((afterCollect ⟨none, none, none, some 2⟩
        [sampleAtomItem, sampleRssItem]).filter
        (fun y => decide (itemInstant y = 0)) =
      ((dedupe [sampleAtomItem, sampleRssItem]).filter
          (fun y => decide (itemInstant y = 0))).take
        (((afterCollect ⟨none, none, none, some 2⟩
            [sampleAtomItem, sampleRssItem]).filter
          (fun y => decide (itemInstant y = 0))).length)) ∧
    (afterCollect ⟨none, none, none, some 2⟩
      [sampleAtomItem, sampleRssItem]).length ≤ ((2 : Int)).toNat ∧
    List.Perm (sortNewestFirst (dedupe [sampleAtomItem, sampleRssItem]))
      (dedupe [sampleAtomItem, sampleRssItem]) ∧
    ((⟨none, none, none, some 2⟩ : Config).maxItemsTotal = none →
      maxTotal ⟨none, none, none, some 2⟩ = 120) :=
  feedgen_c8 ⟨none, none, none, some 2⟩ [sampleAtomItem, sampleRssItem] 0 (by decide)

/-- C4: date-parse failures never propagate: `to_rfc2822` yields nothing on
blank input and nothing on unparseable input (it is total, so it never
raises); the parsers then substitute the current processing time `now` for
the item's `pubDate`; whereas `parse_rfc2822_to_dt`, re-parsing the
canonical string for sorting, returns the epoch datetime (instant 0,
1970-01-01 UTC) on failure, the smallest key among epoch-or-later items. -/
theorem feedgen_c4 (s1 s2 s3 now ns name1 name2 : Str) (entry it : XmlElem) (x y : Item)
    (h1 : pyStrip s1 = [])
    (h2a : pyStrip s2 ≠ []) (h2b : passRFC (pyStrip s2) = false)
    (h2c : fromisoformat (zsubst (pyStrip s2)) = none)
    (h3 : to_rfc2822 (atomRawPub ns entry) = none)
    (h4 : atomItemOf now ns name1 entry = some x)
    (h5 : to_rfc2822 (child_text_by_local it (strL "pubDate")) = none)
    (h6 : rssItemOf now name2 it = some y)
    (h7 : parseRFC2822 s3 = none) :
    to_rfc2822 s1 = none ∧ to_rfc2822 s2 = none ∧
    x.pubDate = now ∧ y.pubDate = now ∧
    parse_rfc2822_to_dt s3 = epochDT ∧ instant epochDT = 0 := by
  refine ⟨?_, ?_, ?_, ?_, ?_, by decide⟩
  · simp [to_rfc2822, h1]
  · have he : (pyStrip s2).isEmpty = false := by
      cases hq : pyStrip s2 with
      | nil => exact absurd hq h2a
      | cons a l => rfl
    simp [to_rfc2822, he, h2b, h2c]
  · rw [atomItemOf_eq] at h4
    split_ifs at h4
    cases h4
    simp [atomBuild, h3]
  · rw [rssItemOf_eq] at h6
    split_ifs at h6
    cases h6
    simp [rssBuild, h5]
  · simp [parse_rfc2822_to_dt, h7]

/-- A sample RSS `item` element with an unparseable date. -/
def sampleBadDateItem : XmlElem :=
  el (strL "item") [] none
    [el (strL "title") [] (some (strL "C")) [],
     el (strL "link") [] (some (strL "http://x/2")) [],
     el (strL "pubDate") [] (some (strL "not-a-date")) []]

/-- C4 witness: blank input, the unparseable input `not-a-date`, an Atom
entry with no date, an RSS item with a bad date, and an unparseable sort
re-parse, at concrete values. -/
theorem feedgen_c4_witness :
    to_rfc2822 (strL "  ") = none ∧ to_rfc2822 (strL "not-a-date") = none ∧
    sampleAtomItem.pubDate = strL "NOW" ∧
    (⟨strL "C", strL "http://x/2", strL "http://x/2", strL "NOW", [],
        strL "S2"⟩ : Item).pubDate = strL "NOW" ∧
    parse_rfc2822_to_dt (strL "garbage") = epochDT ∧ instant epochDT = 0 :=
  feedgen_c4 (strL "  ") (strL "not-a-date") (strL "garbage") (strL "NOW")
    sampleNS (strL "S1") (strL "S2")
    (el (sampleNS ++ strL "entry") [] none
      [el (sampleNS ++ strL "title") [] (some (strL "A")) [],
       el (sampleNS ++ strL "link") [(strL "href", strL "http://x/1")] none []])
    sampleBadDateItem sampleAtomItem
    ⟨strL "C", strL "http://x/2", strL "http://x/2", strL "NOW", [], strL "S2"⟩
    (by decide) (by decide) (by decide) (by decide) (by decide) (by decide)
    (by decide) (by decide) (by decide)

theorem find?_congrP {α : Type} (p q : α → Bool) (h : ∀ x, p x = q x) :
    ∀ l : List α, l.find? p = l.find? q := by
  intro l
  induction l with
  | nil => rfl
  | cons a l ih => simp only [List.find?, h a, ih]

theorem filterMap_congrP {α β : Type} (f g : α → Option β) (h : ∀ x, f x = g x) :
    ∀ l : List α, l.filterMap f = l.filterMap g := by
  intro l
  induction l with
  | nil => rfl
  | cons a l ih => simp only [List.filterMap_cons, h a, ih]

theorem dropWhile_until_brace : ∀ pre : Str, '\x7d' ∉ pre → ∀ rest : Str,
    (pre ++ '\x7d' :: rest).dropWhile (fun c => decide (c ≠ '\x7d')) =
      '\x7d' :: rest := by
  intro pre
  induction pre with
  | nil => intro _ rest; simp [List.dropWhile]
  | cons a pre ih =>
    intro h rest
    have ha : a ≠ '\x7d' := fun hq => h (hq ▸ List.mem_cons_self a pre)
    simp only [List.cons_append, List.dropWhile_cons, decide_eq_true_eq]
    rw [if_pos ha]
    exact ih (fun hm => h (List.mem_cons_of_mem a hm)) rest

theorem localname_of_ns (ns rest : Str) (h : '\x7d' ∉ ns) :
    localname (('\x7b' :: ns) ++ '\x7d' :: rest) = rest := by
  have hmem : (('\x7b' :: ns) ++ '\x7d' :: rest).any
      (fun c => decide (c = '\x7d')) = true :=
    List.any_eq_true.mpr ⟨'\x7d', by simp, by simp⟩
  have hpre : '\x7d' ∉ '\x7b' :: ns := by
    intro hq
    rcases List.mem_cons.mp hq with hq | hq
    · exact absurd hq.symm (by decide)
    · exact h hq
  unfold localname
  rw [if_pos hmem, dropWhile_until_brace ('\x7b' :: ns) hpre rest]
  rfl

theorem tagOf_retag (g : Str → Str) (e : XmlElem) :
    tagOf (retagE g e) = '\x7b' :: g (tagOf e) ++ '\x7d' :: localname (tagOf e) := by
  cases e; rfl

theorem textOf_retag (g : Str → Str) (e : XmlElem) :
    textOf (retagE g e) = textOf e := by
  cases e; rfl

theorem kidsOf_retag (g : Str → Str) (e : XmlElem) :
    kidsOf (retagE g e) = retagF g (kidsOf e) := by
  cases e; rfl

theorem localname_tag_retag {g : Str → Str} (hg : ∀ t, '\x7d' ∉ g t) (e : XmlElem) :
    localname (tagOf (retagE g e)) = localname (tagOf e) := by
  rw [tagOf_retag, localname_of_ns _ _ (hg (tagOf e))]

theorem forestList_retagF (g : Str → Str) :
    ∀ f : XmlForest, forestList (retagF g f) = (forestList f).map (retagE g)
  | .nil => rfl
  | .cons e f => by simp [retagF, forestList, forestList_retagF g f]

theorem childrenL_retag (g : Str → Str) (e : XmlElem) :
    childrenL (retagE g e) = (childrenL e).map (retagE g) := by
  rw [childrenL, kidsOf_retag, forestList_retagF, childrenL]

mutual
theorem iterE_retag (g : Str → Str) :
    ∀ e : XmlElem, iterE (retagE g e) = (iterE e).map (retagE g)
  | .mk t a x k => by
    simp only [retagE, iterE, List.map_cons]
    rw [iterF_retag g k]

theorem iterF_retag (g : Str → Str) :
    ∀ f : XmlForest, iterF (retagF g f) = (iterF f).map (retagE g)
  | .nil => rfl
  | .cons e f => by
    simp only [retagF, iterF, List.map_append]
    rw [iterE_retag g e, iterF_retag g f]
end

theorem child_text_retag {g : Str → Str} (hg : ∀ t, '\x7d' ∉ g t)
    (e : XmlElem) (name : Str) :
    child_text_by_local (retagE g e) name = child_text_by_local e name := by
  simp only [child_text_by_local, childrenL_retag]
  generalize childrenL e = l
  induction l with
  | nil => rfl
  | cons c l ih =>
    by_cases hc : lowerS (localname (tagOf c)) = lowerS name
    · rw [List.map_cons,
        List.find?_cons_of_pos _ (by simp [localname_tag_retag hg, hc]),
        List.find?_cons_of_pos _ (by simp [hc])]
      show safe_text (textOf (retagE g c)) = safe_text (textOf c)
      rw [textOf_retag]
    · rw [List.map_cons,
        List.find?_cons_of_neg _ (by simp [localname_tag_retag hg, hc]),
        List.find?_cons_of_neg _ (by simp [hc])]
      exact ih

theorem rssDesc_retag {g : Str → Str} (hg : ∀ t, '\x7d' ∉ g t) (it : XmlElem) :
    rssDesc (retagE g it) = rssDesc it := by
  simp only [rssDesc, child_text_retag hg, childrenL_retag]
  by_cases hd : (child_text_by_local it (strL "description")).isEmpty
  · simp only [hd, ite_true, if_pos]
    generalize childrenL it = l
    induction l with
    | nil => rfl
    | cons c l ih =>
      by_cases hc : (decide (lowerS (localname (tagOf c)) = strL "encoded") &&
          ¬ (safe_text (textOf c)).isEmpty) = true
      · rw [List.map_cons,
          List.find?_cons_of_pos (p := fun ch =>
              decide (lowerS (localname (tagOf ch)) = strL "encoded") &&
              ¬ (safe_text (textOf ch)).isEmpty) _ (by
            show (decide (lowerS (localname (tagOf (retagE g c))) = strL "encoded") &&
              ¬ (safe_text (textOf (retagE g c))).isEmpty) = true
            rw [localname_tag_retag hg, textOf_retag]
            exact hc),
          List.find?_cons_of_pos (p := fun ch =>
              decide (lowerS (localname (tagOf ch)) = strL "encoded") &&
              ¬ (safe_text (textOf ch)).isEmpty) _ hc]
        show safe_text (textOf (retagE g c)) = safe_text (textOf c)
        rw [textOf_retag]
      · rw [List.map_cons,
          List.find?_cons_of_neg (p := fun ch =>
              decide (lowerS (localname (tagOf ch)) = strL "encoded") &&
              ¬ (safe_text (textOf ch)).isEmpty) _ (by
            show ¬ (decide (lowerS (localname (tagOf (retagE g c))) = strL "encoded") &&
              ¬ (safe_text (textOf (retagE g c))).isEmpty) = true
            rw [localname_tag_retag hg, textOf_retag]
            exact hc),
          List.find?_cons_of_neg (p := fun ch =>
              decide (lowerS (localname (tagOf ch)) = strL "encoded") &&
              ¬ (safe_text (textOf ch)).isEmpty) _ hc]
        exact ih
  · simp [hd]

theorem rssItemOf_retag {g : Str → Str} (hg : ∀ t, '\x7d' ∉ g t)
    (now name : Str) (it : XmlElem) :
    rssItemOf now name (retagE g it) = rssItemOf now name it := by
  simp only [rssItemOf, child_text_retag hg, rssDesc_retag hg]

theorem filter_map_list {α β : Type} (p : β → Bool) (f : α → β) :
    ∀ l : List α, (l.map f).filter p = (l.filter (fun a => p (f a))).map f := by
  intro l
  induction l with
  | nil => rfl
  | cons a l ih =>
    by_cases h : p (f a)
    · simp [List.filter_cons, h, ih]
    · simp [List.filter_cons, h, ih]

/-- C7: the RSS extractor is invariant under arbitrary re-namespacing of
every element (any namespace prefix on `rss`/`channel`/`item` is
tolerated), and it extracts exactly one Item per qualifying `item` element
found anywhere inside the first `channel` element found anywhere in the
tree by local-name search, fields per local-name child lookup with the
`encoded` description fallback. -/
theorem feedgen_c7 (now : Str) (root : XmlElem) (name : Str) (g : Str → Str)
    (hg : ∀ t, '\x7d' ∉ g t) :
    parse_rss now (retagE g root) name = parse_rss now root name ∧
    parse_rss now root name = rssSpec now root name := by
  constructor
  · simp only [parse_rss]
    rw [iterE_retag, List.find?_map]
    rw [find?_congrP _ (fun el => decide (lowerS (localname (tagOf el)) = strL "channel"))
      (fun e => by simp [Function.comp, localname_tag_retag hg])]
    rcases hch : (iterE root).find?
        (fun el => decide (lowerS (localname (tagOf el)) = strL "channel")) with _ | channel
    · rfl
    · simp only [Option.map_some']
      rw [iterE_retag, filter_map_list]
      rw [List.filter_congr (fun x _ => by
        simp [localname_tag_retag hg] :
        ∀ x ∈ iterE channel,
          (decide (lowerS (localname (tagOf (retagE g x))) = strL "item")) =
          (decide (lowerS (localname (tagOf x)) = strL "item")))]
      rw [List.filterMap_map]
      exact filterMap_congrP _ _ (fun x => rssItemOf_retag hg now name x) _
  · simp only [parse_rss, rssSpec]
    rcases hch : (iterE root).find?
        (fun el => decide (lowerS (localname (tagOf el)) = strL "channel")) with _ | channel
    · rfl
    · exact filterMap_if rssQualifies (rssBuild now name) (rssItemOf now name) _
        (fun e => rssItemOf_eq now name e)

/-- C7 witness: the sample RSS document re-namespaced with `urn:x` parses
identically. -/
theorem feedgen_c7_witness :
    parse_rss (strL "NOW") (retagE (fun _ => strL "urn:x") sampleRssRoot) (strL "S2") =
      parse_rss (strL "NOW") sampleRssRoot (strL "S2") ∧
    parse_rss (strL "NOW") sampleRssRoot (strL "S2") =
      rssSpec (strL "NOW") sampleRssRoot (strL "S2") :=
  feedgen_c7 (strL "NOW") sampleRssRoot (strL "S2") (fun _ => strL "urn:x")
    (fun _ => show '\x7d' ∉ strL "urn:x" by decide)

theorem parseIsoDate_dash (s : Str) (c : Nat × Nat × Nat)
    (h : parseIsoDate s = some c) : s.get? 4 = some '-' := by
  unfold parseIsoDate at h
  cases h4 : read4At s 0 with
  | none => rw [h4] at h; simp at h
  | some y =>
  rw [h4] at h
  cases h5 : read2At s 5 with
  | none => rw [h5] at h; simp at h
  | some mo =>
  rw [h5] at h
  cases h8 : read2At s 8 with
  | none => rw [h8] at h; simp at h
  | some d =>
  rw [h8] at h
  by_cases hc : chAt s 4 '-' = true
  · simpa [chAt] using hc
  · simp only [Bool.not_eq_true] at hc
    simp [hc] at h

/-- If the input ends with `Z`, the program's substitution hands
`fromisoformat` a string ending in `+00:00`, so a successful parse is
either naive or carries a zero offset. -/
theorem fromiso_zsubst_offset (s : Str) (dt : DT)
    (hz : s.getLast? = some 'Z')
    (h : fromisoformat (zsubst s) = some dt) :
    dt.offset = none ∨ dt.offset = some 0 := by
  have hzs : zsubst s = s.dropLast ++ strL "+00:00" := by simp [zsubst, hz]
  rw [hzs] at h
  have hq6 : (strL "+00:00").length = 6 := rfl
  have hdl : (List.dropLast s).length = s.length - 1 := List.length_dropLast s
  have hs1 : 1 ≤ s.length := by
    cases s with
    | nil => simp at hz
    | cons a l => simp
  have hlen : (s.dropLast ++ strL "+00:00").length = s.dropLast.length + 6 := by
    rw [List.length_append, hq6]
  unfold fromisoformat at h
  by_cases l4 : s.dropLast.length = 4
  · -- total length 10: the date parse needs a dash at index 4, but it is '+'
    exfalso
    rw [if_pos (by omega)] at h
    rcases Option.map_eq_some'.mp h with ⟨c, hc, _⟩
    have hplus : (s.dropLast ++ strL "+00:00").get? 4 = some '+' := by
      rw [List.get?_append_right (by omega), l4]
      rfl
    rw [parseIsoDate_dash _ _ hc] at hplus
    exact absurd hplus (by simp)
  by_cases l10 : s.dropLast.length = 10
  · -- total length 16: only a naive result can come out
    rw [if_neg (by omega), if_pos (by simp; omega)] at h
    split at h
    all_goals try (exact Option.noConfusion h)
    split_ifs at h with hcond hl16
    · cases h
      exact Or.inl rfl
    · exact absurd (by omega : (s.dropLast ++ strL "+00:00").length = 16) hl16
  by_cases l16 : s.dropLast.length = 16
  · -- total length 22: the offset is parsed from the trailing "+00:00"
    rw [if_neg (by omega), if_pos (by simp; omega)] at h
    split at h
    all_goals try (exact Option.noConfusion h)
    split_ifs at h with hcond hl16x
    · exfalso; omega
    · have hdrop : (s.dropLast ++ strL "+00:00").drop 16 = strL "+00:00" := by
        rw [← l16, List.drop_left]
      rw [hdrop] at h
      rcases Option.map_eq_some'.mp h with ⟨o, ho, hdt⟩
      have ho0 : o = 0 := by
        have hpo : parseIsoOffset (strL "+00:00") = some 0 := by decide
        rw [hpo] at ho
        exact (Option.some.inj ho).symm
      right
      rw [← hdt, ho0]
  by_cases l13 : s.dropLast.length = 13
  · -- total length 19: the time parse needs a colon at index 13, but it is '+'
    exfalso
    rw [if_neg (by omega), if_neg (by simp; omega), if_pos (by simp; omega)] at h
    split at h
    all_goals try (exact Option.noConfusion h)
    have hplus : (s.dropLast ++ strL "+00:00").get? 13 = some '+' := by
      rw [List.get?_append_right (by omega), l13]
      rfl
    by_cases hc13 : chAt (s.dropLast ++ strL "+00:00") 13 ':' = true
    · have hcolon : (s.dropLast ++ strL "+00:00").get? 13 = some ':' := by
        simpa [chAt] using hc13
      rw [hplus] at hcolon
      exact absurd hcolon (by simp)
    · simp only [Bool.not_eq_true] at hc13
      simp [hc13] at h
  by_cases l19 : s.dropLast.length = 19
  · -- total length 25: the offset is parsed from the trailing "+00:00"
    rw [if_neg (by omega), if_neg (by simp; omega), if_pos (by simp; omega)] at h
    split at h
    all_goals try (exact Option.noConfusion h)
    split_ifs at h with hcond hl19x
    · exfalso; omega
    · have hdrop : (s.dropLast ++ strL "+00:00").drop 19 = strL "+00:00" := by
        rw [← l19, List.drop_left]
      rw [hdrop] at h
      rcases Option.map_eq_some'.mp h with ⟨o, ho, hdt⟩
      have ho0 : o = 0 := by
        have hpo : parseIsoOffset (strL "+00:00") = some 0 := by decide
        rw [hpo] at ho
        exact (Option.some.inj ho).symm
      right
      rw [← hdt, ho0]
  · -- no admissible length: every branch is `none`
    rw [if_neg (by omega), if_neg (by simp; omega), if_neg (by simp; omega)] at h
    exact absurd h (by simp)

/-- C5 counterexample: the claim's round-trip fails as stated. A
canonical-format input with surrounding whitespace (which still contains a
comma and `GMT`) is returned whitespace-stripped, not unchanged; and an
input with a comma and the timezone abbreviation `EST` is not passed
through at all — the code only recognizes `GMT`, `+` and `-`, so it falls
to the ISO parse and yields nothing. -/
theorem feedgen_c5_cx :
    (to_rfc2822 (strL " Tue, 01 Jan 2024 00:00:00 GMT ") =
        some (strL "Tue, 01 Jan 2024 00:00:00 GMT") ∧
      strL "Tue, 01 Jan 2024 00:00:00 GMT" ≠ strL " Tue, 01 Jan 2024 00:00:00 GMT ") ∧
    to_rfc2822 (strL "Tue, 01 Jan 2024 00:00:00 EST") = none := by
  refine ⟨⟨?_, by decide⟩, ?_⟩ <;> decide

/-- C5 (amended): `to_rfc2822` round-trips in the following sense: every
input whose stripped form contains a comma and either the substring `GMT`
or a `+` or `-` character is returned in stripped form (hence unchanged
when it carries no surrounding whitespace); and every input ending in `Z`
that the ISO-8601 parse accepts after the `Z` substitution is normalized
to the canonical wire format of an offset-zero datetime denoting the same
instant as the parsed value. -/
theorem feedgen_c5 (s : Str) (dt : DT) :
    (passRFC (pyStrip s) = true → to_rfc2822 s = some (pyStrip s)) ∧
    ((pyStrip s).getLast? = some 'Z' → passRFC (pyStrip s) = false →
      fromisoformat (zsubst (pyStrip s)) = some dt →
      to_rfc2822 s = some (format_datetime { dt with offset := some 0 }) ∧
      instant { dt with offset := some 0 } = instant dt) := by
  constructor
  · intro hp
    have hne : (pyStrip s).isEmpty = false := by
      cases hq : pyStrip s with
      | nil =>
        rw [hq] at hp
        exact absurd hp (by decide)
      | cons a l => rfl
    simp [to_rfc2822, hne, hp]
  · intro hz hpf hiso
    have hoff := fromiso_zsubst_offset (pyStrip s) dt hz hiso
    have hne : (pyStrip s).isEmpty = false := by
      cases hq : pyStrip s with
      | nil => rw [hq] at hz; exact absurd hz (by simp)
      | cons a l => rfl
    have hA : astimezoneUTC
        (if dt.offset = none then { dt with offset := some 0 } else dt) =
        { dt with offset := some 0 } := by
      rcases hoff with h0 | h0
      · rw [if_pos h0]
        simp [astimezoneUTC]
      · rw [if_neg (by simp [h0])]
        simp [astimezoneUTC, h0]
    constructor
    · simp only [to_rfc2822, hne, hpf, Bool.false_eq_true, if_neg,
        ite_false, hiso, hA]
    · rcases hoff with h0 | h0 <;> simp [instant, h0]

/-- The parsed datetime of `2024-10-03T08:00:00+00:00`, used by the C5
witness. -/
def dtOct : DT := ⟨2024, 10, 3, 8, 0, 0, some 0⟩

/-- C5 witness: a canonical-format input without padding passes through
verbatim, and the ISO input `2024-10-03T08:00:00Z` normalizes to the
canonical rendering of the same UTC instant. -/
theorem feedgen_c5_witness :
    to_rfc2822 (strL "Wed, 02 Oct 2024 10:00:00 GMT") =
      some (pyStrip (strL "Wed, 02 Oct 2024 10:00:00 GMT")) ∧
    (to_rfc2822 (strL "2024-10-03T08:00:00Z") =
        some (format_datetime { dtOct with offset := some 0 }) ∧
      instant { dtOct with offset := some 0 } = instant dtOct) := by
  have h1 := (feedgen_c5 (strL "Wed, 02 Oct 2024 10:00:00 GMT") dtOct).1 (by decide)
  have h2 := (feedgen_c5 (strL "2024-10-03T08:00:00Z") dtOct).2
    (by decide) (by decide) (by decide)
  exact ⟨h1, h2⟩

end Feedgen
